import Mathlib

/-!
Verification of the Markdown-to-Mintlify conversion pipeline
(`pipeline/tools/parser.py`): a shallow embedding of the recursive-descent
parser (`Parser`), the printer (`MintPrinter`) and the entry point
(`to_mint`), together with theorems settling the specification claims.

The parser consumes a token stream produced by the lexer
(`pipeline/tools/lexer.py`, not part of the sources at hand); tokens are
therefore taken as inputs directly.  Recursion in the parser and in the
printer's tree walk is modelled with explicit fuel (`PRes.fuelOut` /
`VOut.fuelOut` signal exhaustion); everything else is a direct translation
of the Python code.
-/

namespace Mint

/-! ## Python string primitives

Helpers reproducing the exact semantics of the `str` methods used by
`parser.py` (`strip`, `lstrip`, `split` with and without separator,
`rsplit`, `join`, `startswith`, slicing).  They operate on `List Char`;
`String` is converted at the boundary. -/

/-- Python whitespace (`str.strip()` with no argument, `\s` in `re`). -/
def isPySpace (c : Char) : Bool :=
  c = ' ' || c = '\t' || c = '\n' || c = '\r' || c = '\x0b' || c = '\x0c'

def memChar (c : Char) (set : List Char) : Bool := set.contains c

/-- `str.lstrip(chars)`: drop leading characters belonging to `set`. -/
def pyLstripL (set : List Char) (cs : List Char) : List Char :=
  cs.dropWhile (fun c => memChar c set)

/-- `str.strip(chars)`: drop characters belonging to `set` from both ends. -/
def pyStripL (set : List Char) (cs : List Char) : List Char :=
  ((cs.dropWhile (fun c => memChar c set)).reverse.dropWhile
    (fun c => memChar c set)).reverse

/-- `str.strip()` (no argument): strip Python whitespace from both ends. -/
def pyStripWsL (cs : List Char) : List Char :=
  ((cs.dropWhile isPySpace).reverse.dropWhile isPySpace).reverse

def pyStripWs (s : String) : String := String.mk (pyStripWsL s.toList)

/-- `str.rstrip()` (no argument): strip Python whitespace from the right. -/
def pyRstripL (cs : List Char) : List Char :=
  (cs.reverse.dropWhile isPySpace).reverse

def pyRstrip (s : String) : String := String.mk (pyRstripL s.toList)

def pyStrip (s : String) (set : List Char) : String :=
  String.mk (pyStripL set s.toList)

def pyLstrip (s : String) (set : List Char) : String :=
  String.mk (pyLstripL set s.toList)

/-- First maximal run of non-whitespace characters and the remainder. -/
def takeWord : List Char → (List Char × List Char)
  | [] => ([], [])
  | c :: t =>
    if isPySpace c then ([], c :: t)
    else
      let (w, r) := takeWord t
      (c :: w, r)

/-- `str.split(None, maxsplit)`: split on whitespace runs, at most `ms`
splits, discarding leading whitespace; once `ms` is exhausted the rest of
the string (with the whitespace in front of it removed) is one field.
All call sites in `parser.py` use a bounded `maxsplit`, so recursion on
`ms` is faithful. -/
def pySplitWsMax : Nat → List Char → List String
  | ms, cs =>
    match cs.dropWhile isPySpace with
    | [] => []
    | c :: t =>
      match ms with
      | 0 => [String.mk (c :: t)]
      | m + 1 =>
        let (w, r) := takeWord (c :: t)
        String.mk w :: pySplitWsMax m r

/-- `str.split(sep, 1)` for a one-character separator: split at the first
occurrence only; a string with no occurrence gives a single field. -/
def splitCharMax1 (sep : Char) : List Char → List (List Char)
  | [] => [[]]
  | c :: t =>
    if c = sep then [[], t]
    else
      match splitCharMax1 sep t with
      | [a] => [c :: a]
      | a :: rest => (c :: a) :: rest
      | [] => [[c]]

/-- `str.rsplit(sep, 1)` for a one-character separator: split at the last
occurrence only. -/
def rsplitCharMax1 (sep : Char) (cs : List Char) : List (List Char) :=
  match splitCharMax1 sep cs.reverse with
  | [a] => [a.reverse]
  | [a, b] => [b.reverse, a.reverse]
  | _ => [cs]

/-- `str.split(sep)` for a one-character separator (no maxsplit):
`"".split(sep)` is `[""]`, matching Python. -/
def splitCharAllL (sep : Char) : List Char → List (List Char)
  | [] => [[]]
  | c :: t =>
    let r := splitCharAllL sep t
    if c = sep then [] :: r
    else
      match r with
      | a :: rest => (c :: a) :: rest
      | [] => [[c]]

def pySplitChar (sep : Char) (s : String) : List String :=
  (splitCharAllL sep s.toList).map String.mk

/-- `sep.join(parts)`. -/
def pyJoin (sep : String) : List String → String
  | [] => ""
  | [x] => x
  | x :: y :: rest => x ++ sep ++ pyJoin sep (y :: rest)

/-- `str.startswith(p)`. -/
def startsWithL : List Char → List Char → Bool
  | [], _ => true
  | _ :: _, [] => false
  | p :: ps, c :: cs => p = c && startsWithL ps cs

/-- `str.lower()` (ASCII, which covers every kind keyword compared). -/
def strLower (s : String) : String := String.mk (s.toList.map Char.toLower)

/-- `" " * n`. -/
def spaces (n : Nat) : String := String.mk (List.replicate n ' ')

/-- Number of leading space characters of a string. -/
def leadingSpaces (s : String) : Nat := (s.toList.takeWhile (· = ' ')).length

/-! ## The two anchor regexes of `MintPrinter._visit_heading`

`acorn_pattern = r"\{\s*#\s*([A-Za-z0-9\-_]+)\s*\}"` and
`paren_pattern = r"\(([^)]+)\)\s*$"`.  Both are deterministic on the
single-line strings heading values are (each character class is disjoint
from what follows it), so leftmost `re.search` / `re.sub` are modelled by
a direct scan.  `$` is taken as end-of-string: heading token values never
contain a newline. -/

/-- The character class `[A-Za-z0-9\-_]`. -/
def isAnchorChar (c : Char) : Bool :=
  ('A' ≤ c && c ≤ 'Z') || ('a' ≤ c && c ≤ 'z') || ('0' ≤ c && c ≤ '9') ||
    c = '-' || c = '_'

/-- Try to match the curly-brace anchor pattern at the head of `cs`;
returns the captured group and the remainder after the match. -/
def matchAcornAt : List Char → Option (List Char × List Char)
  | '{' :: t =>
    match t.dropWhile isPySpace with
    | '#' :: t2 =>
      let t3 := t2.dropWhile isPySpace
      let g := t3.takeWhile isAnchorChar
      let t4 := t3.dropWhile isAnchorChar
      if g.isEmpty then none
      else
        match t4.dropWhile isPySpace with
        | '}' :: t5 => some (g, t5)
        | _ => none
    | _ => none
  | _ => none

/-- `re.search(acorn_pattern, _)`: group 1 of the leftmost match. -/
def acornFind : List Char → Option (List Char)
  | [] => none
  | c :: t =>
    match matchAcornAt (c :: t) with
    | some (g, _) => some g
    | none => acornFind t

/-- `re.sub(acorn_pattern, "", _)`: remove every non-overlapping match,
scanning left to right.  Fuelled by the input length (each step consumes
at least one character, so `cs.length` fuel always suffices). -/
def acornSubF : Nat → List Char → List Char
  | 0, cs => cs
  | _ + 1, [] => []
  | f + 1, c :: t =>
    match matchAcornAt (c :: t) with
    | some (_, rest) => acornSubF f rest
    | none => c :: acornSubF f t

def acornSub (cs : List Char) : List Char := acornSubF cs.length cs

/-- Try to match `\(([^)]+)\)\s*$` at the head of `cs`: a parenthesized
group followed only by whitespace up to the end.  The greedy `\s*$` makes
any match run to the end of the string. -/
def matchParenAt : List Char → Option (List Char)
  | '(' :: t =>
    let g := t.takeWhile (· ≠ ')')
    if g.isEmpty then none
    else
      match t.dropWhile (· ≠ ')') with
      | ')' :: r2 => if r2.all isPySpace then some g else none
      | _ => none
  | _ => none

/-- Leftmost match of the paren pattern: returns the captured group and
the text with the match removed (the prefix before the `(`, since the
match extends to the end of the string). -/
def parenSearchSub : List Char → Option (List Char × List Char)
  | [] => none
  | c :: t =>
    match matchParenAt (c :: t) with
    | some g => some (g, [])
    | none =>
      match parenSearchSub t with
      | some (g, pre) => some (g, c :: pre)
      | none => none

/-- `[a-z0-9]`, the characters `_slugify` keeps. -/
def isSlugKeep (c : Char) : Bool :=
  ('a' ≤ c && c ≤ 'z') || ('0' ≤ c && c ≤ '9')

/-- Collapse runs of `-` to a single `-`. -/
def collapseDash : List Char → List Char
  | [] => []
  | [c] => [c]
  | c :: d :: t =>
    if c = '-' && d = '-' then collapseDash (d :: t)
    else c :: collapseDash (d :: t)

/-- `_slugify` from `MintPrinter._visit_heading`: lowercase, replace each
maximal run of non-`[a-z0-9]` characters by one hyphen, trim hyphens.
(Replacing every such character by `-` and collapsing hyphen runs is the
same transformation, since `-` itself is outside `[a-z0-9]`.) -/
def slugify (s : String) : String :=
  let lowered := s.toList.map Char.toLower
  let dashed := lowered.map (fun c => if isSlugKeep c then c else '-')
  String.mk (pyStripL ['-'] (collapseDash dashed))

/-- Anchor-id extraction and heading-text cleanup of
`MintPrinter._visit_heading` (the part before slugification): explicit
curly-brace anchor first, otherwise a trailing parenthesized suffix;
whichever matched is removed from the text, which is then stripped. -/
def extractAnchor (value : String) : Option String × String :=
  let cs := value.toList
  match acornFind cs with
  | some g => (some (String.mk g), String.mk (pyStripWsL (acornSub cs)))
  | none =>
    match parenSearchSub cs with
    | some (g, pre) => (some (String.mk g), String.mk (pyStripWsL pre))
    | none => (none, value)

/-! ## Tokens and errors

Token kinds are the members of `lexer.TokenType` referenced by
`parser.py`.  Python exceptions are modelled by `PyError`: `ParseError`
(the structured type of `parser.py`), and the bare `ValueError` /
`NotImplementedError` raised by `_parse_conditional_block`,
`_visit_admonition` and the standard library (unpacking and indexing
failures). -/

inductive TokenType where
  | TEXT | BLANK | HEADING | FENCE | UL_MARKER | OL_MARKER | BLOCKQUOTE
  | ADMONITION | TAB_HEADER | HTML_TAG | CONDITIONAL_BLOCK_OPEN
  | CONDITIONAL_BLOCK_CLOSE | FRONT_MATTER | EOF
  deriving DecidableEq, Repr

structure Token where
  type : TokenType
  value : String
  line : Nat
  indent : Nat
  deriving DecidableEq, Repr

structure ParseErrorData where
  message : String
  line : Option Nat
  token : Option Token
  expected : Option String
  found : Option String
  filePath : Option String
  deriving DecidableEq, Repr

inductive PyError where
  | parseError (e : ParseErrorData)
  | valueError (msg : String)
  | notImplementedError (msg : Option String)
  deriving DecidableEq, Repr

/-! ## The AST (`Node` subclasses of `parser.py`) -/

inductive Node where
  | document (blocks : List Node) (startLine limitLine : Nat)
  | heading (level : Nat) (value : String) (startLine limitLine : Nat)
  | paragraph (value : List String) (startLine limitLine : Nat)
  | codeBlock (language : Option String) (meta : String) (content : String)
      (startLine limitLine : Nat)
  | listItem (blocks : List Node) (startLine limitLine : Nat)
  | unorderedList (items : List Node) (startLine limitLine : Nat)
  | orderedList (items : List Node) (startLine limitLine : Nat)
  | quoteBlock (lines : List String) (startLine limitLine : Nat)
  | tab (title : String) (blocks : List Node) (startLine limitLine : Nat)
  | tabBlock (tabs : List Node) (startLine limitLine : Nat)
  | admonition (tag kind title : String) (blocks : List Node)
      (startLine limitLine : Nat)
  | frontMatter (content : String) (startLine limitLine : Nat)
  | htmlBlock (content : String) (startLine limitLine : Nat)
  | conditionalBlock (language : String) (blocks : List Node) (indent : Nat)
      (startLine limitLine : Nat)
  deriving Repr

def Node.startLine : Node → Nat
  | .document _ s _ => s
  | .heading _ _ s _ => s
  | .paragraph _ s _ => s
  | .codeBlock _ _ _ s _ => s
  | .listItem _ s _ => s
  | .unorderedList _ s _ => s
  | .orderedList _ s _ => s
  | .quoteBlock _ s _ => s
  | .tab _ _ s _ => s
  | .tabBlock _ s _ => s
  | .admonition _ _ _ _ s _ => s
  | .frontMatter _ s _ => s
  | .htmlBlock _ s _ => s
  | .conditionalBlock _ _ _ s _ => s

def Node.limitLine : Node → Nat
  | .document _ _ l => l
  | .heading _ _ _ l => l
  | .paragraph _ _ l => l
  | .codeBlock _ _ _ _ l => l
  | .listItem _ _ l => l
  | .unorderedList _ _ l => l
  | .orderedList _ _ l => l
  | .quoteBlock _ _ l => l
  | .tab _ _ _ l => l
  | .tabBlock _ _ l => l
  | .admonition _ _ _ _ _ l => l
  | .frontMatter _ _ l => l
  | .htmlBlock _ _ l => l
  | .conditionalBlock _ _ _ _ l => l

/-- The `blocks` attribute looked up by `_visit_list_item` (Python reads
`item.blocks` dynamically; node classes without that attribute would hit
an `AttributeError`). -/
def Node.blocksAttr : Node → Option (List Node)
  | .document bs _ _ => some bs
  | .listItem bs _ _ => some bs
  | .tab _ bs _ _ => some bs
  | .admonition _ _ _ bs _ _ => some bs
  | .conditionalBlock _ bs _ _ _ => some bs
  | _ => none

/-- The `title` attribute looked up by `_visit_tabblock`. -/
def Node.titleAttr : Node → Option String
  | .tab t _ _ _ => some t
  | .admonition _ _ t _ _ _ => some t
  | _ => none

/-! ## Parser

`Parser` holds the current look-ahead token and an iterator over the
rest; this is modelled as a `List Token` whose head is the current token.
`Parser._advance` pulls the next token and raises
`ParseError("Unexpected end of input", ...)` when the iterator is
exhausted (the bare `StopIteration` of `next` on an empty stream at
construction time is modelled as a `ValueError`). -/

def unexpEndErr (t : Token) : PyError :=
  .parseError ⟨"Unexpected end of input", some t.line, some t,
    some "more tokens", some "end of input", none⟩

def stopIterationErr : PyError := .valueError "StopIteration"

/-- `Parser._advance`: return the current token; the new current token is
the next one, which must exist. -/
def advanceT : List Token → Except PyError (Token × List Token)
  | [] => .error stopIterationErr
  | [t] => .error (unexpEndErr t)
  | t :: u :: r => .ok (t, u :: r)

/-- Line of the current token (used for `limit_line`; the current token
always exists when this is read). -/
def curLine (toks : List Token) : Nat :=
  match toks with
  | t :: _ => t.line
  | [] => 0

/-- Loop of `_parse_paragraph`: collect consecutive `TEXT` token values. -/
def paraText : List Token → Except PyError (List String × List Token)
  | [] => .ok ([], [])
  | t :: rest =>
    if t.type = .TEXT then
      match rest with
      | [] => .error (unexpEndErr t)
      | u :: r =>
        match paraText (u :: r) with
        | .error e => .error e
        | .ok (vs, r2) => .ok (t.value :: vs, r2)
    else .ok ([], t :: rest)

/-- Second loop of `_parse_paragraph`: swallow blank lines. -/
def blankSkip : List Token → Except PyError (List Token)
  | [] => .ok []
  | t :: rest =>
    if t.type = .BLANK then
      match rest with
      | [] => .error (unexpEndErr t)
      | u :: r => blankSkip (u :: r)
    else .ok (t :: rest)

/-- `Parser._parse_paragraph`. -/
def parseParagraphT : List Token → Except PyError (Node × List Token)
  | [] => .error stopIterationErr
  | t :: rest =>
    match paraText (t :: rest) with
    | .error e => .error e
    | .ok (vs, r1) =>
      match blankSkip r1 with
      | .error e => .error e
      | .ok r2 => .ok (.paragraph vs t.line (curLine r2), r2)

/-- `Parser._parse_heading`: `hashes, text = token.value.split(" ", 1)`;
a value without a space makes the unpacking fail. -/
def parseHeadingT (toks : List Token) : Except PyError (Node × List Token) :=
  match advanceT toks with
  | .error e => .error e
  | .ok (t, rest) =>
    match splitCharMax1 ' ' t.value.toList with
    | [hashes, text] =>
      .ok (.heading hashes.length (String.mk text) t.line (t.line + 1), rest)
    | _ => .error (.valueError "not enough values to unpack (expected 2, got 1)")

/-- Body loop of `_parse_code_block`: collect lines until the closing
fence, re-indenting each relative to the opening fence
(`max(0, tok.indent - fence_indent)` leading spaces, which for natural
numbers is truncated subtraction); reaching `EOF` raises the
"Unclosed code block" `ParseError` carrying the opening fence's line. -/
def cbBody (openTok : Token) : List Token → Except PyError (List String × Token × List Token)
  | [] => .error stopIterationErr
  | t :: rest =>
    if t.type = .FENCE then
      match rest with
      | [] => .error (unexpEndErr t)
      | u :: r => .ok ([], t, u :: r)
    else if t.type = .EOF then
      .error (.parseError ⟨"Unclosed code block", some openTok.line,
        some openTok, some "closing fence '```'", some "end of file", none⟩)
    else
      match rest with
      | [] => .error (unexpEndErr t)
      | u :: r =>
        match cbBody openTok (u :: r) with
        | .error e => .error e
        | .ok (ls, c, r2) =>
          .ok ((spaces (t.indent - openTok.indent) ++ t.value) :: ls, c, r2)

/-- Fence-line analysis of `_parse_code_block`:
`fence_body = value[3:].strip()`, then `fence_body.split(" ", 1)` gives
the language (`None` when the first field is empty and there is no meta)
and the meta string (`""` when absent). -/
def cbLanguage (value : String) : Option String :=
  match splitCharMax1 ' ' (pyStripWsL (value.toList.drop 3)) with
  | [only] => if only.isEmpty then none else some (String.mk only)
  | first :: _ => some (String.mk first)
  | [] => none

def cbMeta (value : String) : String :=
  match splitCharMax1 ' ' (pyStripWsL (value.toList.drop 3)) with
  | [_] => ""
  | _ :: second :: _ => String.mk second
  | [] => ""

/-- `Parser._parse_code_block`. -/
def parseCodeBlockT (toks : List Token) : Except PyError (Node × List Token) :=
  match advanceT toks with
  | .error e => .error e
  | .ok (openTok, rest) =>
    match cbBody openTok rest with
    | .error e => .error e
    | .ok (bodyLines, closeTok, r2) =>
      .ok (.codeBlock (cbLanguage openTok.value) (cbMeta openTok.value)
        (pyJoin "\n" bodyLines) openTok.line (closeTok.line + 1), r2)

/-- Loop of `_parse_quote_block` (after the first token): collect
consecutive `BLOCKQUOTE` tokens, stripping the `"> "` prefix set. -/
def quoteLoop : List Token → Except PyError (List String × List Token)
  | [] => .ok ([], [])
  | t :: rest =>
    if t.type = .BLOCKQUOTE then
      match rest with
      | [] => .error (unexpEndErr t)
      | u :: r =>
        match quoteLoop (u :: r) with
        | .error e => .error e
        | .ok (ls, r2) => .ok (pyLstrip t.value ['>', ' '] :: ls, r2)
    else .ok ([], t :: rest)

/-- `Parser._parse_quote_block`. -/
def parseQuoteT (toks : List Token) : Except PyError (Node × List Token) :=
  match advanceT toks with
  | .error e => .error e
  | .ok (first, rest) =>
    match quoteLoop rest with
    | .error e => .error e
    | .ok (ls, r2) =>
      .ok (.quoteBlock (pyLstrip first.value ['>', ' '] :: ls)
        first.line (curLine r2), r2)

/-- Loop of `_parse_html_block`: collect consecutive `HTML_TAG` tokens,
each line re-indented to its original column. -/
def htmlLoop : List Token → Except PyError (List String × List Token)
  | [] => .ok ([], [])
  | t :: rest =>
    if t.type = .HTML_TAG then
      match rest with
      | [] => .error (unexpEndErr t)
      | u :: r =>
        match htmlLoop (u :: r) with
        | .error e => .error e
        | .ok (ls, r2) => .ok ((spaces t.indent ++ t.value) :: ls, r2)
    else .ok ([], t :: rest)

/-- `Parser._parse_html_block`. -/
def parseHtmlT (toks : List Token) : Except PyError (Node × List Token) :=
  match advanceT toks with
  | .error e => .error e
  | .ok (first, rest) =>
    match htmlLoop rest with
    | .error e => .error e
    | .ok (ls, r2) =>
      .ok (.htmlBlock (pyJoin "\n" ((spaces first.indent ++ first.value) :: ls))
        first.line (curLine r2), r2)

/-- Loop of `_parse_front_matter`: collect token values until the closing
`---` delimiter, then consume it. -/
def fmLoop : List Token → Except PyError (List String × Token × List Token)
  | [] => .error stopIterationErr
  | t :: rest =>
    if t.type = .FRONT_MATTER then
      match rest with
      | [] => .error (unexpEndErr t)
      | u :: r => .ok ([], t, u :: r)
    else
      match rest with
      | [] => .error (unexpEndErr t)
      | u :: r =>
        match fmLoop (u :: r) with
        | .error e => .error e
        | .ok (ls, c, r2) => .ok (t.value :: ls, c, r2)

/-- `Parser._parse_front_matter`. -/
def parseFrontMatterT (toks : List Token) : Except PyError (Node × List Token) :=
  match advanceT toks with
  | .error e => .error e
  | .ok (openTok, rest) =>
    match fmLoop rest with
    | .error e => .error e
    | .ok (ls, closeTok, r2) =>
      .ok (.frontMatter (pyJoin "\n" ls) openTok.line (closeTok.line + 1), r2)

/-- Header analysis of `_parse_admonition`:
`tag, *tail = value.split(None, 2)`, kind defaulting to `"note"`, title
stripped of spaces then of double quotes. -/
def parseAdmHeader (value : String) : Except PyError (String × String × String) :=
  match pySplitWsMax 2 value.toList with
  | [] => .error (.valueError "not enough values to unpack (expected at least 1, got 0)")
  | tag :: tail =>
    let kind := match tail with
      | k :: _ => strLower k
      | [] => "note"
    let title0 := match tail with
      | _ :: t2 :: _ => t2
      | _ => ""
    .ok (tag, kind, pyStrip (pyStrip title0 [' ']) ['"'])

/-- Title extraction of `_parse_tab_block`:
`value.split('"', 1)[1].rsplit('"', 1)[0]`; a header without a double
quote raises an `IndexError`. -/
def tabTitleOf (value : String) : Except PyError String :=
  match splitCharMax1 '"' value.toList with
  | _ :: second :: _ =>
    match rsplitCharMax1 '"' second with
    | first :: _ => .ok (String.mk first)
    | [] => .error (.valueError "IndexError: list index out of range")
  | _ => .error (.valueError "IndexError: list index out of range")

/-- First-text extraction of `_parse_list_item`:
`value.split(maxsplit=1)[1] if " " in value else ""`; a marker value
containing a space but splitting into a single field (e.g. `"1. "`)
raises an `IndexError`. -/
def listItemFirstText (value : String) : Except PyError String :=
  if value.toList.contains ' ' then
    match pySplitWsMax 1 value.toList with
    | _ :: second :: _ => .ok second
    | _ => .error (.valueError "IndexError: list index out of range")
  else .ok ""

/-- The mismatched-indentation error of `_parse_blocks_until_indent` for a
`CONDITIONAL_BLOCK_CLOSE` token inside a nested scope. -/
def condCloseIndentErr (minIndent : Nat) (t : Token) : PyError :=
  .parseError ⟨"Conditional block close ':::' has mismatched indentation - check that opening and closing tags have the same indentation level",
    some t.line, some t,
    some ("content with indent > " ++ toString minIndent ++ " or properly indented closing tag"),
    some ("conditional block close ':::' at indent " ++ toString t.indent ++ " (should match opening tag indent)"),
    none⟩

/-- The unexpected front-matter error of `_parse_blocks_until_indent`. -/
def fmInScopeErr (t : Token) : PyError :=
  .parseError ⟨"Unexpected front matter token", some t.line, some t,
    some "content or block end", some "front matter delimiter '---'", none⟩

/-- Language extraction of `_parse_conditional_block`:
`value[3:].strip()`. -/
def condLanguage (value : String) : String :=
  String.mk (pyStripWsL (value.toList.drop 3))

/-! ### The mutually recursive block parsers

`Parser.parse`, `_parse_block`, `_parse_blocks_until_indent`,
`_parse_list`, `_parse_list_item`, `_parse_admonition`,
`_parse_tab_block` and `_parse_conditional_block` recurse into each
other; they are embedded as one function `prun` over a call descriptor,
structurally recursive on an explicit fuel (one unit per call).
`PRes.fuelOut` reports exhaustion; the parsers that return a node use
`okN`, the loops that return a node list use `okL`. -/

inductive PCall where
  | doc (toks : List Token)
  | blocks (toks : List Token)
  | block (toks : List Token)
  | bui (minIndent : Nat) (toks : List Token)
  | list (ordered : Bool) (toks : List Token)
  | listItems (mk : TokenType) (listIndent : Nat) (toks : List Token)
  | item (listIndent : Nat) (toks : List Token)
  | adm (toks : List Token)
  | tabs (toks : List Token)
  | tabLoop (toks : List Token)
  | cond (toks : List Token)
  | condLoop (toks : List Token)
  deriving Repr

inductive PRes where
  | okN (n : Node) (rest : List Token)
  | okL (ns : List Node) (rest : List Token)
  | err (e : PyError)
  | fuelOut
  deriving Repr

def liftE : Except PyError (Node × List Token) → PRes
  | .error e => .err e
  | .ok (n, rest) => .okN n rest

def prun : Nat → PCall → PRes
  | 0, _ => .fuelOut
  | f + 1, c =>
    match c with
    | .doc toks =>
      match toks with
      | [] => .err stopIterationErr
      | t :: _ =>
        if t.type = .FRONT_MATTER then
          match parseFrontMatterT toks with
          | .error e => .err e
          | .ok (fm, rest) =>
            match prun f (.blocks rest) with
            | .okL bs r2 => .okN (.document (fm :: bs) 1 (curLine r2)) r2
            | .okN n r2 => .okN n r2
            | .err e => .err e
            | .fuelOut => .fuelOut
        else
          match prun f (.blocks toks) with
          | .okL bs r2 => .okN (.document bs 1 (curLine r2)) r2
          | .okN n r2 => .okN n r2
          | .err e => .err e
          | .fuelOut => .fuelOut
    | .blocks toks =>
      match toks with
      | [] => .err stopIterationErr
      | t :: rest =>
        if t.type = .EOF then .okL [] (t :: rest)
        else if t.type = .BLANK then
          match rest with
          | [] => .err (unexpEndErr t)
          | u :: r => prun f (.blocks (u :: r))
        else
          match prun f (.block (t :: rest)) with
          | .okN b r1 =>
            match prun f (.blocks r1) with
            | .okL bs r2 => .okL (b :: bs) r2
            | o => o
          | .okL bs r1 => .okL bs r1
          | .err e => .err e
          | .fuelOut => .fuelOut
    | .block toks =>
      match toks with
      | [] => .err stopIterationErr
      | t :: rest =>
        if t.type = .HEADING then liftE (parseHeadingT (t :: rest))
        else if t.type = .FENCE then liftE (parseCodeBlockT (t :: rest))
        else if t.type = .UL_MARKER then prun f (.list false (t :: rest))
        else if t.type = .OL_MARKER then prun f (.list true (t :: rest))
        else if t.type = .BLOCKQUOTE then liftE (parseQuoteT (t :: rest))
        else if t.type = .ADMONITION then prun f (.adm (t :: rest))
        else if t.type = .TAB_HEADER then prun f (.tabs (t :: rest))
        else if t.type = .HTML_TAG then liftE (parseHtmlT (t :: rest))
        else if t.type = .CONDITIONAL_BLOCK_OPEN then prun f (.cond (t :: rest))
        else liftE (parseParagraphT (t :: rest))
    | .bui minIndent toks =>
      match toks with
      | [] => .err stopIterationErr
      | t :: rest =>
        if t.type = .EOF then .okL [] (t :: rest)
        else if minIndent < t.indent ∨ t.type = .BLANK then
          if t.type = .CONDITIONAL_BLOCK_CLOSE then
            .err (condCloseIndentErr minIndent t)
          else if t.type = .FRONT_MATTER then .err (fmInScopeErr t)
          else if t.type = .BLANK then
            match rest with
            | [] => .err (unexpEndErr t)
            | u :: r => prun f (.bui minIndent (u :: r))
          else
            match prun f (.block (t :: rest)) with
            | .okN b r1 =>
              match prun f (.bui minIndent r1) with
              | .okL bs r2 => .okL (b :: bs) r2
              | o => o
            | .okL bs r1 => .okL bs r1
            | .err e => .err e
            | .fuelOut => .fuelOut
        else .okL [] (t :: rest)
    | .list ordered toks =>
      match toks with
      | [] => .err stopIterationErr
      | t :: rest =>
        let mk := if ordered then TokenType.OL_MARKER else TokenType.UL_MARKER
        match prun f (.listItems mk t.indent (t :: rest)) with
        | .okL items r1 =>
          match items with
          | [] => .err (.valueError "IndexError: list index out of range")
          | i0 :: _ =>
            if ordered then
              .okN (.orderedList items i0.startLine
                (items.getLastD i0).limitLine) r1
            else
              .okN (.unorderedList items i0.startLine
                (items.getLastD i0).limitLine) r1
        | .okN n r1 => .okN n r1
        | .err e => .err e
        | .fuelOut => .fuelOut
    | .listItems mk listIndent toks =>
      match toks with
      | [] => .okL [] []
      | t :: rest =>
        if t.type = mk ∧ t.indent = listIndent then
          match prun f (.item listIndent (t :: rest)) with
          | .okN it r1 =>
            match prun f (.listItems mk listIndent r1) with
            | .okL its r2 => .okL (it :: its) r2
            | o => o
          | .okL its r1 => .okL its r1
          | .err e => .err e
          | .fuelOut => .fuelOut
        else .okL [] (t :: rest)
    | .item listIndent toks =>
      match advanceT toks with
      | .error e => .err e
      | .ok (marker, rest) =>
        match listItemFirstText marker.value with
        | .error e => .err e
        | .ok firstText =>
          match prun f (.bui listIndent rest) with
          | .okL nested r1 =>
            let blocks :=
              if firstText ≠ "" then
                Node.paragraph [firstText] marker.line (marker.line + 1) :: nested
              else nested
            .okN (.listItem blocks marker.line (curLine r1)) r1
          | .okN n r1 => .okN n r1
          | .err e => .err e
          | .fuelOut => .fuelOut
    | .adm toks =>
      match advanceT toks with
      | .error e => .err e
      | .ok (h, rest) =>
        match parseAdmHeader h.value with
        | .error e => .err e
        | .ok (tag, kind, title) =>
          match prun f (.bui h.indent rest) with
          | .okL bs r1 =>
            .okN (.admonition tag kind title bs h.line (curLine r1)) r1
          | .okN n r1 => .okN n r1
          | .err e => .err e
          | .fuelOut => .fuelOut
    | .tabs toks =>
      match prun f (.tabLoop toks) with
      | .okL tabs r1 =>
        match tabs with
        | [] => .err (.valueError "IndexError: list index out of range")
        | t0 :: _ =>
          .okN (.tabBlock tabs t0.startLine (tabs.getLastD t0).limitLine) r1
      | .okN n r1 => .okN n r1
      | .err e => .err e
      | .fuelOut => .fuelOut
    | .tabLoop toks =>
      match toks with
      | [] => .okL [] []
      | t :: rest =>
        if t.type = .TAB_HEADER then
          match advanceT (t :: rest) with
          | .error e => .err e
          | .ok (h, r0) =>
            match tabTitleOf h.value with
            | .error e => .err e
            | .ok title =>
              match prun f (.bui h.indent r0) with
              | .okL inner r1 =>
                match prun f (.tabLoop r1) with
                | .okL ts r2 =>
                  .okL (Node.tab title inner h.line (curLine r1) :: ts) r2
                | o => o
              | .okN n r1 => .okN n r1
              | .err e => .err e
              | .fuelOut => .fuelOut
        else .okL [] (t :: rest)
    | .cond toks =>
      match advanceT toks with
      | .error e => .err e
      | .ok (openTok, rest) =>
        if startsWithL ":::".toList openTok.value.toList then
          let language := condLanguage openTok.value
          if language = "python" ∨ language = "js" then
            match prun f (.condLoop rest) with
            | .okL bs r1 =>
              match r1 with
              | c :: _ =>
                if c.type = .CONDITIONAL_BLOCK_CLOSE then
                  match advanceT r1 with
                  | .error e => .err e
                  | .ok (closeTok, r2) =>
                    .okN (.conditionalBlock language bs openTok.indent
                      openTok.line (closeTok.line + 1)) r2
                else
                  .err (.valueError ("Missing closing tag ':::' for conditional block starting at line "
                    ++ toString openTok.line))
              | [] =>
                .err (.valueError ("Missing closing tag ':::' for conditional block starting at line "
                  ++ toString openTok.line))
            | .okN n r1 => .okN n r1
            | .err e => .err e
            | .fuelOut => .fuelOut
          else
            .err (.valueError ("Invalid conditional block language: " ++ language
              ++ ". Must be 'python' or 'js'"))
        else
          .err (.valueError ("Invalid conditional block opening tag: " ++ openTok.value))
    | .condLoop toks =>
      match toks with
      | [] => .okL [] []
      | t :: rest =>
        if t.type = .EOF then .okL [] (t :: rest)
        else if t.type = .CONDITIONAL_BLOCK_CLOSE then .okL [] (t :: rest)
        else if t.type = .BLANK then
          match rest with
          | [] => .err (unexpEndErr t)
          | u :: r => prun f (.condLoop (u :: r))
        else
          match prun f (.block (t :: rest)) with
          | .okN b r1 =>
            match prun f (.condLoop r1) with
            | .okL bs r2 => .okL (b :: bs) r2
            | o => o
          | .okL bs r1 => .okL bs r1
          | .err e => .err e
          | .fuelOut => .fuelOut

/-! ## Printer (`MintPrinter`)

The printer's mutable state is its output line buffer, the indent level
and the `printed_first_heading` flag.  `print` re-initializes the buffer
and the indent level — *not* the flag — then visits the tree and returns
`"\n".join(output).rstrip() + "\n"`. -/

structure PState where
  output : List String
  indentLevel : Nat
  printedFirstHeading : Bool
  deriving DecidableEq, Repr

/-- `MintPrinter._add_line`: append `line` prefixed by two spaces per
indent level. -/
def addLine (st : PState) (line : String) : PState :=
  ⟨st.output ++ [spaces (2 * st.indentLevel) ++ line], st.indentLevel,
    st.printedFirstHeading⟩

def bumpIndent (st : PState) : PState :=
  ⟨st.output, st.indentLevel + 1, st.printedFirstHeading⟩

/-- `self.indent_level -= 1` (always balanced with a preceding `+= 1` in
the Python code, so truncated subtraction is exact). -/
def dropIndent (st : PState) : PState :=
  ⟨st.output, st.indentLevel - 1, st.printedFirstHeading⟩

/-- `MintPrinter._visit_heading`, which never recurses: extract and
slugify the anchor, then either print the heading (with an anchor tag
when the slug is truthy) or, if no heading was printed yet, emit the
front-matter block and set the flag. -/
def visitHeadingPure (level : Nat) (value : String) (st : PState) : PState :=
  let (anchorRaw, headingText) := extractAnchor value
  let anchorId := anchorRaw.map slugify
  if st.printedFirstHeading then
    let st1 :=
      match anchorId with
      | some a =>
        if a ≠ "" then addLine st ("<a id=\"" ++ a ++ "\"></a>") else st
      | none => st
    addLine st1 (String.mk (List.replicate level '#') ++ " " ++ headingText)
  else
    let st1 := addLine st "---"
    let st2 := addLine st1 ("title: " ++ headingText)
    let st3 := addLine st2 "---"
    ⟨st3.output, st3.indentLevel, true⟩

def paraGo : List String → PState → PState
  | [], st => st
  | l :: rest, st => paraGo rest (addLine st (pyStripWs l))

def codeGo : List String → PState → PState
  | [], st => st
  | l :: rest, st => codeGo rest (addLine st l)

/-- The fence line rebuilt by `_visit_codeblock`: language and meta are
attached only when truthy. -/
def fenceLineOf (language : Option String) (meta : String) : String :=
  match language with
  | some l =>
    if l ≠ "" then
      if meta ≠ "" then "```" ++ l ++ " " ++ meta else "```" ++ l
    else "```"
  | none => "```"

/-- `MintPrinter._visit_codeblock`: rebuild the fence line (language and
meta only when truthy), print the body lines when the content is
non-empty, close the fence. -/
def visitCodePure (language : Option String) (meta content : String)
    (st : PState) : PState :=
  let st1 := addLine st (fenceLineOf language meta)
  let st2 := if content ≠ "" then codeGo (pySplitChar '\n' content) st1 else st1
  addLine st2 "```"

def quoteGo : List String → PState → PState
  | [], st => st
  | l :: rest, st => quoteGo rest (addLine st ("> " ++ l))

/-- `MintPrinter._visit_htmlblock`: each line verbatim, except that a
line which strips to nothing (other than the first) becomes empty. -/
def htmlGo : List String → Nat → PState → PState
  | [], _, st => st
  | l :: rest, i, st =>
    let st1 :=
      if pyStripWs l ≠ "" ∨ i = 0 then addLine st l else addLine st ""
    htmlGo rest (i + 1) st1

/-- `_visit_admonition`'s `kind_to_callout` dict. -/
def kindToCallout (kind : String) : Option String :=
  if kind = "note" then some "Note"
  else if kind = "warning" then some "Warning"
  else if kind = "info" then some "Info"
  else if kind = "tip" then some "Tip"
  else if kind = "danger" then some "Danger"
  else if kind = "important" then some "Warning"
  else none

inductive VOut where
  | ok (st : PState)
  | err (e : PyError)
  | fuelOut
  deriving DecidableEq, Repr

/-- Loop of `_visit_document`: visit each block, then append a blank line
after every block except the first (`if i > 0` *after* the visit). -/
def docBlocksGo (rv : Node → PState → VOut) : List Node → Nat → PState → VOut
  | [], _, st => .ok st
  | b :: rest, i, st =>
    match rv b st with
    | .ok st1 => docBlocksGo rv rest (i + 1) (if 0 < i then addLine st1 "" else st1)
    | o => o

/-- The `for i, block in enumerate(...): if i > 0: add(""); visit(block)`
loop shared by `_visit_tabblock`, `_visit_admonition` and
`_visit_conditionalblock`: blank line *before* every block except the
first. -/
def preBlocksGo (rv : Node → PState → VOut) : List Node → Nat → PState → VOut
  | [], _, st => .ok st
  | b :: rest, i, st =>
    match rv b (if 0 < i then addLine st "" else st) with
    | .ok st1 => preBlocksGo rv rest (i + 1) st1
    | o => o

/-- `isinstance(block, Paragraph)` together with the `value` access of
`_visit_list_item`. -/
def paragraphLines : Node → Option (List String)
  | .paragraph ls _ _ => some ls
  | _ => none

/-- `MintPrinter._visit_list_item`: the first block carries the marker
(joined onto one line if it is a paragraph); subsequent blocks are
visited one indent level deeper. -/
def itemBlocksGo (rv : Node → PState → VOut) (marker : String) :
    List Node → Nat → PState → VOut
  | [], _, st => .ok st
  | b :: rest, i, st =>
    if i = 0 then
      match paragraphLines b with
      | some ls =>
        itemBlocksGo rv marker rest 1 (addLine st (marker ++ pyJoin " " ls))
      | none =>
        match rv b (addLine st marker) with
        | .ok st1 => itemBlocksGo rv marker rest 1 st1
        | o => o
    else
      match rv b (bumpIndent st) with
      | .ok st1 => itemBlocksGo rv marker rest (i + 1) (dropIndent st1)
      | o => o

/-- Loop of `_visit_unorderedlist`: fixed `"* "` marker for every item. -/
def itemsUGo (rv : Node → PState → VOut) : List Node → PState → VOut
  | [], st => .ok st
  | it :: rest, st =>
    match it.blocksAttr with
    | none => .err (.valueError "AttributeError: no attribute blocks")
    | some bs =>
      match itemBlocksGo rv "* " bs 0 st with
      | .ok st1 => itemsUGo rv rest st1
      | o => o

/-- Loop of `_visit_orderedlist`: the marker is the item's 1-based
position, regardless of anything stored in the item. -/
def itemsOGo (rv : Node → PState → VOut) : List Node → Nat → PState → VOut
  | [], _, st => .ok st
  | it :: rest, i, st =>
    match it.blocksAttr with
    | none => .err (.valueError "AttributeError: no attribute blocks")
    | some bs =>
      match itemBlocksGo rv (toString i ++ ". ") bs 0 st with
      | .ok st1 => itemsOGo rv rest (i + 1) st1
      | o => o

/-- The backtick character (stripped from tab titles). -/
def backtick : Char := Char.ofNat 96

/-- Loop of `_visit_tabblock` over the tabs. -/
def tabsGo (rv : Node → PState → VOut) : List Node → PState → VOut
  | [], st => .ok st
  | t :: rest, st =>
    match t.titleAttr, t.blocksAttr with
    | some ttl, some bs =>
      let st1 := bumpIndent (addLine st
        ("<Tab title=\"" ++ pyStrip ttl [backtick] ++ "\">"))
      match preBlocksGo rv bs 0 st1 with
      | .ok st2 => tabsGo rv rest (addLine (dropIndent st2) "</Tab>")
      | o => o
    | _, _ => .err (.valueError "AttributeError: no attribute title or blocks")

/-- `MintPrinter._visit_admonition`. -/
def admonGo (rv : Node → PState → VOut) (tag kind title : String)
    (bs : List Node) (st : PState) : VOut :=
  if tag = "???" then
    let st1 := bumpIndent
      (if title ≠ "" then addLine st ("<Accordion title=\"" ++ title ++ "\">")
       else addLine st "<Accordion>")
    match preBlocksGo rv bs 0 st1 with
    | .ok st2 => .ok (addLine (dropIndent st2) "</Accordion>")
    | o => o
  else if tag = "!!!" then
    match kindToCallout (strLower kind) with
    | none =>
      .err (.notImplementedError (some ("Unsupported admonition kind: " ++ strLower kind)))
    | some callout =>
      let st1 := bumpIndent (addLine st ("<" ++ callout ++ ">"))
      let st2 := if title ≠ "" then addLine st1 ("**" ++ title ++ "**") else st1
      match preBlocksGo rv bs 0 st2 with
      | .ok st3 => .ok (addLine (dropIndent st3) ("</" ++ callout ++ ">"))
      | o => o
  else .err (.notImplementedError none)

/-- `MintPrinter._visit`: dispatch on the node variant.  Fuel bounds the
tree depth; the per-variant handlers are the cases. -/
def vrun : Nat → Node → PState → VOut
  | 0, _, _ => .fuelOut
  | f + 1, n, st =>
    match n with
    | .document bs _ _ => docBlocksGo (fun b s => vrun f b s) bs 0 st
    | .heading lvl v _ _ => .ok (visitHeadingPure lvl v st)
    | .paragraph ls _ _ => .ok (paraGo ls st)
    | .codeBlock lang meta content _ _ => .ok (visitCodePure lang meta content st)
    | .unorderedList its _ _ => itemsUGo (fun b s => vrun f b s) its st
    | .orderedList its _ _ => itemsOGo (fun b s => vrun f b s) its 1 st
    | .quoteBlock ls _ _ => .ok (quoteGo ls st)
    | .tab _ _ _ _ => .err (.notImplementedError none)
    | .tabBlock ts _ _ =>
      match tabsGo (fun b s => vrun f b s) ts (bumpIndent (addLine st "<Tabs>")) with
      | .ok st2 => .ok (addLine (dropIndent st2) "</Tabs>")
      | o => o
    | .admonition tag kind title bs _ _ =>
      admonGo (fun b s => vrun f b s) tag kind title bs st
    | .listItem _ _ _ => .err (.notImplementedError none)
    | .frontMatter _ _ _ => .ok st
    | .htmlBlock content _ _ => .ok (htmlGo (pySplitChar '\n' content) 0 st)
    | .conditionalBlock lang bs _ _ _ =>
      match preBlocksGo (fun b s => vrun f b s) bs 0
          (addLine st (":::" ++ lang)) with
      | .ok st2 => .ok (addLine st2 ":::")
      | o => o

inductive PrintRes where
  | ok (s : String) (flagAfter : Bool)
  | err (e : PyError)
  | fuelOut
  deriving DecidableEq, Repr

/-- `MintPrinter.print`: reset the buffer and the indent level (the
`printed_first_heading` flag carries over from the printer's prior state,
passed here as `flag`), visit, then join/rstrip and append one newline.
Returns the flag's new value alongside the string. -/
def printAst (fuel : Nat) (n : Node) (flag : Bool) : PrintRes :=
  match vrun fuel n ⟨[], 0, flag⟩ with
  | .ok st => .ok (pyRstrip (pyJoin "\n" st.output) ++ "\n") st.printedFirstHeading
  | .err e => .err e
  | .fuelOut => .fuelOut

/-! ## Entry point (`to_mint`) -/

inductive RRes where
  | ok (s : String)
  | err (e : PyError)
  | fuelOut
  deriving DecidableEq, Repr

/-- The `except ParseError` clause of `to_mint`: re-raise with the file
path attached when the error had none; any other exception type passes
through unchanged. -/
def withFilePath (e : PyError) (filePath : Option String) : PyError :=
  match e, filePath with
  | .parseError pe, some p =>
    match pe.filePath with
    | none => .parseError ⟨pe.message, pe.line, pe.token, pe.expected, pe.found, some p⟩
    | some _ => e
  | _, _ => e

/-- `to_mint(markdown, file_path)`.  The tokenizer lives in
`pipeline/tools/lexer.py`, outside the sources at hand, so it is a
parameter `lexf`; every theorem below either holds for all `lexf` or
supplies a concrete token stream. -/
def toMint (fuel : Nat) (lexf : String → List Token) (markdown : String)
    (filePath : Option String) : RRes :=
  if markdown = "" then .ok ""
  else
    match prun fuel (.doc (lexf markdown)) with
    | .fuelOut => .fuelOut
    | .err e => .err (withFilePath e filePath)
    | .okL _ _ => .err (.valueError "impossible")
    | .okN d _ =>
      match printAst fuel d false with
      | .ok s _ => .ok s
      | .err e => .err (withFilePath e filePath)
      | .fuelOut => .fuelOut

/-! ## Basic lemmas about the printer's state helpers -/

theorem addLine_eq (o : List String) (i : Nat) (b : Bool) (s : String) :
    addLine ⟨o, i, b⟩ s = ⟨o ++ [spaces (2 * i) ++ s], i, b⟩ := rfl

theorem empty_append_str (s : String) : "" ++ s = s := by
  cases s; rfl

theorem spaces_zero : spaces 0 = "" := rfl

theorem paraGo_spec (ls : List String) (o : List String) (i : Nat) (b : Bool) :
    paraGo ls ⟨o, i, b⟩ =
      ⟨o ++ ls.map (fun x => spaces (2 * i) ++ pyStripWs x), i, b⟩ := by
  induction ls generalizing o with
  | nil => simp [paraGo]
  | cons l rest ih =>
    simp only [paraGo, addLine_eq, ih, List.map_cons, List.append_assoc,
      List.singleton_append]

theorem codeGo_spec (ls : List String) (o : List String) (i : Nat) (b : Bool) :
    codeGo ls ⟨o, i, b⟩ =
      ⟨o ++ ls.map (fun x => spaces (2 * i) ++ x), i, b⟩ := by
  induction ls generalizing o with
  | nil => simp [codeGo]
  | cons l rest ih =>
    simp only [codeGo, addLine_eq, ih, List.map_cons, List.append_assoc,
      List.singleton_append]

theorem quoteGo_spec (ls : List String) (o : List String) (i : Nat) (b : Bool) :
    quoteGo ls ⟨o, i, b⟩ =
      ⟨o ++ ls.map (fun x => spaces (2 * i) ++ ("> " ++ x)), i, b⟩ := by
  induction ls generalizing o with
  | nil => simp [quoteGo]
  | cons l rest ih =>
    simp only [quoteGo, addLine_eq, ih, List.map_cons, List.append_assoc,
      List.singleton_append]

/-! ## Claim C10: paragraph lines are stripped before printing -/

/-- **C10.** For every `Paragraph` node, `_visit_paragraph` emits one
output line per stored line, with that line's leading and trailing
whitespace stripped (`line.strip()`) before the current indent prefix is
applied; in particular a stored line with surrounding spaces is not
reproduced verbatim (second conjunct). -/
theorem c10_paragraph_lines_stripped :
    (∀ (f : Nat) (ls : List String) (s l : Nat) (st : PState),
      vrun (f + 1) (.paragraph ls s l) st =
        .ok ⟨st.output ++
              ls.map (fun x => spaces (2 * st.indentLevel) ++ pyStripWs x),
            st.indentLevel, st.printedFirstHeading⟩) ∧
    pyStripWs "  hi  " = "hi" ∧ ("hi" : String) ≠ "  hi  " := by
  refine ⟨?_, by decide, by decide⟩
  intro f ls s l st
  show VOut.ok (paraGo ls st) = _
  obtain ⟨o, i, b⟩ := st
  rw [paraGo_spec]

/-! ## Claim C2: the parse loop diverges on a top-level `:::` token

`Parser.parse` loops `while not check(EOF)`, dispatching through
`_parse_block`.  A `CONDITIONAL_BLOCK_CLOSE` (or `FRONT_MATTER`) token at
the top level matches no dispatch arm and falls through to
`_parse_paragraph`, which consumes no token for a non-`TEXT` current
token and returns an empty `Paragraph`; the loop then re-examines the
same token forever.  The corresponding source text is a document
containing a bare `:::` line (with no opening tag), e.g. `":::\n"`. -/

def divergeToks : List Token :=
  [⟨.CONDITIONAL_BLOCK_CLOSE, ":::", 1, 0⟩, ⟨.EOF, "", 2, 0⟩]

theorem blocks_diverge :
    ∀ f, prun f (.blocks divergeToks) = .fuelOut := by
  intro f
  induction f with
  | zero => rfl
  | succ g ih =>
    cases g with
    | zero => rfl
    | succ h =>
      have step : prun (h + 1 + 1) (.blocks divergeToks) =
          (match prun (h + 1) (.blocks divergeToks) with
           | .okL bs r2 => PRes.okL (Node.paragraph [] 1 1 :: bs) r2
           | o => o) := rfl
      rw [step, ih]

/-- **C2.** The parser is *not* total: on the token stream of the
document `":::\n"` (a lone conditional-block-close token followed by
`EOF`), `Parser.parse` never returns — for every amount of fuel the
embedded parser reports fuel exhaustion, because each loop iteration
consumes no token.  This contradicts the claimed contract "consume a
token sequence and produce exactly one Document, or fail with a
structured parse error". -/
theorem c2_parse_diverges_on_top_level_close :
    ∀ fuel, prun fuel (.doc divergeToks) = .fuelOut := by
  intro fuel
  cases fuel with
  | zero => rfl
  | succ g =>
    have step : prun (g + 1) (.doc divergeToks) =
        (match prun g (.blocks divergeToks) with
         | .okL bs r2 => PRes.okN (.document bs 1 (curLine r2)) r2
         | .okN n r2 => PRes.okN n r2
         | .err e => PRes.err e
         | .fuelOut => PRes.fuelOut) := rfl
    rw [step, blocks_diverge g]

/-! ## Code blocks: claims C8 and C7 -/

def unclosedFenceErr (openTok : Token) : PyError :=
  .parseError ⟨"Unclosed code block", some openTok.line, some openTok,
    some "closing fence '```'", some "end of file", none⟩

theorem cbBody_unclosed (body : List Token) (openTok eofTok : Token)
    (rest : List Token)
    (hb : ∀ t ∈ body, t.type ≠ .FENCE ∧ t.type ≠ .EOF)
    (he : eofTok.type = .EOF) :
    cbBody openTok (body ++ eofTok :: rest) = .error (unclosedFenceErr openTok) := by
  induction body with
  | nil =>
    rw [List.nil_append, cbBody.eq_def]
    simp [he, unclosedFenceErr]
  | cons t body2 ih =>
    obtain ⟨h1, h2⟩ := hb t (by simp)
    have ih2 := ih (fun x hx => hb x (by simp [hx]))
    rw [List.cons_append, cbBody.eq_def]
    simp only [if_neg h1, if_neg h2]
    cases hb2 : body2 ++ eofTok :: rest with
    | nil => simp at hb2
    | cons u r =>
      simp only [hb2] at ih2 ⊢
      rw [ih2]
theorem cbBody_closed (body : List Token) (openTok closeTok : Token)
    (rest : List Token)
    (hb : ∀ t ∈ body, t.type ≠ .FENCE ∧ t.type ≠ .EOF)
    (hc : closeTok.type = .FENCE) (hr : rest ≠ []) :
    cbBody openTok (body ++ closeTok :: rest) =
      .ok (body.map (fun t => spaces (t.indent - openTok.indent) ++ t.value),
        closeTok, rest) := by
  induction body with
  | nil =>
    obtain ⟨u, r, rfl⟩ : ∃ u r, rest = u :: r := by
      cases rest with
      | nil => exact absurd rfl hr
      | cons u r => exact ⟨u, r, rfl⟩
    rw [List.nil_append, cbBody.eq_def]
    simp [hc]
  | cons t body2 ih =>
    obtain ⟨h1, h2⟩ := hb t (by simp)
    have ih2 := ih (fun x hx => hb x (by simp [hx]))
    rw [List.cons_append, cbBody.eq_def]
    simp only [if_neg h1, if_neg h2]
    cases hb2 : body2 ++ closeTok :: rest with
    | nil => simp at hb2
    | cons u r =>
      simp only [hb2] at ih2 ⊢
      rw [ih2]
      simp

theorem advanceT_cons (t : Token) (xs : List Token) (h : xs ≠ []) :
    advanceT (t :: xs) = .ok (t, xs) := by
  cases xs with
  | nil => exact absurd rfl h
  | cons u r => rfl

theorem c8_unclosed_fence_error :
    ∀ (openTok : Token) (body : List Token) (eofTok : Token)
      (rest : List Token) (f : Nat),
      openTok.type = .FENCE →
      (∀ t ∈ body, t.type ≠ .FENCE ∧ t.type ≠ .EOF) →
      eofTok.type = .EOF →
      parseCodeBlockT (openTok :: (body ++ eofTok :: rest)) =
        .error (unclosedFenceErr openTok) ∧
      prun (f + 1) (.block (openTok :: (body ++ eofTok :: rest))) =
        .err (unclosedFenceErr openTok) := by
  intro openTok body eofTok rest f hF hb he
  have hparse : parseCodeBlockT (openTok :: (body ++ eofTok :: rest)) =
      .error (unclosedFenceErr openTok) := by
    rw [parseCodeBlockT, advanceT_cons openTok (body ++ eofTok :: rest) (by simp)]
    simp only [cbBody_unclosed body openTok eofTok rest hb he]
  refine ⟨hparse, ?_⟩
  rw [prun.eq_def]
  simp only [hF]
  simp [hparse, liftE]

/-- Witness for C8: `"```python\\nx = 1\\n"` (fence never closed) fails
with the "Unclosed code block" error at line 1. -/
theorem c8_unclosed_fence_error_witness :
    parseCodeBlockT [⟨.FENCE, "```python", 1, 0⟩, ⟨.TEXT, "x = 1", 2, 0⟩,
        ⟨.EOF, "", 3, 0⟩] =
      .error (.parseError ⟨"Unclosed code block", some 1,
        some ⟨.FENCE, "```python", 1, 0⟩, some "closing fence '```'",
        some "end of file", none⟩) ∧
    prun 1 (.block [⟨.FENCE, "```python", 1, 0⟩, ⟨.TEXT, "x = 1", 2, 0⟩,
        ⟨.EOF, "", 3, 0⟩]) =
      .err (.parseError ⟨"Unclosed code block", some 1,
        some ⟨.FENCE, "```python", 1, 0⟩, some "closing fence '```'",
        some "end of file", none⟩) :=
  c8_unclosed_fence_error ⟨.FENCE, "```python", 1, 0⟩ [⟨.TEXT, "x = 1", 2, 0⟩]
    ⟨.EOF, "", 3, 0⟩ [] 0 (by decide) (by decide) (by decide)

theorem strMk_toList (s : String) : String.mk s.toList = s := by
  cases s; rfl

theorem toList_append (a b : String) :
    (a ++ b).toList = a.toList ++ b.toList := by
  cases a; cases b; rfl

theorem splitCharAllL_no_sep (sep : Char) (xs : List Char)
    (h : xs.contains sep = false) : splitCharAllL sep xs = [xs] := by
  induction xs with
  | nil => rfl
  | cons c t ih =>
    simp only [List.contains_cons, Bool.or_eq_false_iff] at h
    have hc : ¬ c = sep := by
      intro hcc; subst hcc; simp at h
    rw [splitCharAllL]
    simp only [if_neg hc, ih h.2]

theorem splitCharAllL_append (sep : Char) (xs rest : List Char)
    (h : xs.contains sep = false) :
    splitCharAllL sep (xs ++ sep :: rest) = xs :: splitCharAllL sep rest := by
  induction xs with
  | nil =>
    rw [List.nil_append, splitCharAllL]
    simp
  | cons c t ih =>
    simp only [List.contains_cons, Bool.or_eq_false_iff] at h
    have hc : ¬ c = sep := by
      intro hcc; subst hcc; simp at h
    rw [List.cons_append, splitCharAllL]
    simp only [if_neg hc, ih h.2]

theorem pyJoin_split_roundtrip (stored : List String)
    (hne : stored ≠ [])
    (hnl : ∀ x ∈ stored, x.toList.contains '\n' = false) :
    pySplitChar '\n' (pyJoin "\n" stored) = stored := by
  induction stored with
  | nil => exact absurd rfl hne
  | cons x rest ih =>
    cases rest with
    | nil =>
      have hx := hnl x (by simp)
      simp only [pyJoin, pySplitChar, splitCharAllL_no_sep '\n' x.toList hx,
        List.map_cons, List.map_nil, strMk_toList]
    | cons y rest2 =>
      have hx := hnl x (by simp)
      have step : pyJoin "\n" (x :: y :: rest2) =
          x ++ "\n" ++ pyJoin "\n" (y :: rest2) := rfl
      rw [step]
      have htl : (x ++ "\n" ++ pyJoin "\n" (y :: rest2)).toList =
          x.toList ++ '\n' :: (pyJoin "\n" (y :: rest2)).toList := by
        rw [toList_append, toList_append, List.append_assoc]
        rfl
      rw [pySplitChar, htl, splitCharAllL_append '\n' _ _ hx]
      have ih2 := ih (by simp) (fun z hz => hnl z (by simp [hz]))
      rw [pySplitChar] at ih2
      simp only [List.map_cons, strMk_toList, ih2]

theorem takeWhile_space_replicate (k : Nat) (cs : List Char) :
    (List.takeWhile (fun c => decide (c = ' ')) (List.replicate k ' ' ++ cs)).length =
      k + (List.takeWhile (fun c => decide (c = ' ')) cs).length := by
  induction k with
  | zero => simp
  | succ m ihm =>
    rw [List.replicate_succ, List.cons_append, List.takeWhile_cons]
    simp [ihm]
    omega

theorem leadingSpaces_prefixed (k : Nat) (v : String)
    (h : leadingSpaces v = 0) : leadingSpaces (spaces k ++ v) = k := by
  have htl : (spaces k ++ v).toList = List.replicate k ' ' ++ v.toList := by
    rw [toList_append]; rfl
  rw [leadingSpaces, htl]
  rw [leadingSpaces] at h
  rw [takeWhile_space_replicate]
  omega


theorem codeBlockPrint (f : Nat) (lang : Option String) (meta : String)
    (stored : List String) (out : List String) (b : Bool) (s l : Nat)
    (h1 : stored ≠ []) (h2 : ∀ x ∈ stored, x.toList.contains '\n' = false)
    (h3 : pyJoin "\n" stored ≠ "") :
    vrun (f + 1) (.codeBlock lang meta (pyJoin "\n" stored) s l) ⟨out, 0, b⟩ =
      .ok ⟨out ++ fenceLineOf lang meta :: (stored ++ ["```"]), 0, b⟩ := by
  have hstep : vrun (f + 1) (.codeBlock lang meta (pyJoin "\n" stored) s l) ⟨out, 0, b⟩ =
      .ok (visitCodePure lang meta (pyJoin "\n" stored) ⟨out, 0, b⟩) := rfl
  rw [hstep, visitCodePure]
  simp only [if_pos h3, pyJoin_split_roundtrip stored h1 h2]
  rw [addLine_eq]
  rw [codeGo_spec]
  rw [addLine_eq]
  have hmapid : stored.map (fun x => spaces (2 * 0) ++ x) = stored := by
    rw [show (2 * 0 : Nat) = 0 from rfl, spaces_zero]
    rw [List.map_congr_left (fun x _ => empty_append_str x)]
    exact List.map_id stored
  rw [hmapid]
  simp only [show (2 * 0 : Nat) = 0 from rfl, spaces_zero, empty_append_str]
  simp [List.append_assoc]

theorem codeBlockParse (openTok : Token) (body : List Token)
    (closeTok : Token) (rest : List Token)
    (hb : ∀ t ∈ body, t.type ≠ .FENCE ∧ t.type ≠ .EOF)
    (hc : closeTok.type = .FENCE) (hr : rest ≠ []) :
    parseCodeBlockT (openTok :: (body ++ closeTok :: rest)) =
      .ok (.codeBlock (cbLanguage openTok.value) (cbMeta openTok.value)
        (pyJoin "\n" (body.map (fun t => spaces (t.indent - openTok.indent) ++ t.value)))
        openTok.line (closeTok.line + 1), rest) := by
  rw [parseCodeBlockT, advanceT_cons openTok (body ++ closeTok :: rest) (by simp)]
  simp only [cbBody_closed body openTok closeTok rest hb hc hr]

/-- **C7.** Fence indentation preservation.  (1) `_parse_code_block`
stores each body line with exactly `tok.indent - fence_indent` leading
spaces prepended to the token value (`max(0, ...)` in the source; for
natural numbers Python's `max(0, a - b)` *is* truncated subtraction, see
conjunct 4 for the explicit clamp-at-zero reading).  (2) `_visit_codeblock`
at indent level 0 re-emits the stored body lines verbatim between the
fences.  (3) Hence a body line whose token value has no leading space is
printed with exactly `line_indent - fence_indent` columns of leading
space, and (4) the count is never negative: truncated subtraction equals
`max 0` of the integer difference. -/
theorem c7_fence_relative_indent :
    (∀ (openTok : Token) (body : List Token) (closeTok : Token) (rest : List Token),
      (∀ t ∈ body, t.type ≠ .FENCE ∧ t.type ≠ .EOF) →
      closeTok.type = .FENCE → rest ≠ [] →
      parseCodeBlockT (openTok :: (body ++ closeTok :: rest)) =
        .ok (.codeBlock (cbLanguage openTok.value) (cbMeta openTok.value)
          (pyJoin "\n" (body.map (fun t =>
            spaces (t.indent - openTok.indent) ++ t.value)))
          openTok.line (closeTok.line + 1), rest)) ∧
    (∀ (f : Nat) (lang : Option String) (meta : String)
      (stored out : List String) (b : Bool) (s l : Nat),
      stored ≠ [] → (∀ x ∈ stored, x.toList.contains '\n' = false) →
      pyJoin "\n" stored ≠ "" →
      vrun (f + 1) (.codeBlock lang meta (pyJoin "\n" stored) s l) ⟨out, 0, b⟩ =
        .ok ⟨out ++ fenceLineOf lang meta :: (stored ++ ["```"]), 0, b⟩) ∧
    (∀ (t : Token) (fenceIndent : Nat), leadingSpaces t.value = 0 →
      leadingSpaces (spaces (t.indent - fenceIndent) ++ t.value) =
        t.indent - fenceIndent) ∧
    (∀ i fi : Nat, ((i - fi : Nat) : Int) = max 0 ((i : Int) - (fi : Int))) := by
  refine ⟨codeBlockParse, codeBlockPrint, ?_, ?_⟩
  · intro t fenceIndent h
    exact leadingSpaces_prefixed (t.indent - fenceIndent) t.value h
  · intro i fi
    omega

/-- Witness for C7: a fence opened at indent 2 with body lines at indent
4 (kept at 2 leading spaces) and at indent 0 (clamped to 0), matching the
spec's example. -/
theorem c7_fence_relative_indent_witness :
    parseCodeBlockT [⟨.FENCE, "```py", 1, 2⟩, ⟨.TEXT, "a", 2, 4⟩,
        ⟨.TEXT, "b", 3, 0⟩, ⟨.FENCE, "```", 4, 2⟩, ⟨.EOF, "", 5, 0⟩] =
      .ok (.codeBlock (some "py") "" "  a\nb" 1 5, [⟨.EOF, "", 5, 0⟩]) ∧
    vrun 1 (.codeBlock (some "py") "" "  a\nb" 1 5) ⟨[], 0, false⟩ =
      .ok ⟨["```py", "  a", "b", "```"], 0, false⟩ ∧
    leadingSpaces "  a" = 2 ∧ leadingSpaces "b" = 0 := by
  refine ⟨?_, ?_, ?_, ?_⟩
  · exact c7_fence_relative_indent.1 ⟨.FENCE, "```py", 1, 2⟩
      [⟨.TEXT, "a", 2, 4⟩, ⟨.TEXT, "b", 3, 0⟩] ⟨.FENCE, "```", 4, 2⟩
      [⟨.EOF, "", 5, 0⟩] (by decide) (by decide) (by decide)
  · exact c7_fence_relative_indent.2.1 0 (some "py") "" ["  a", "b"] [] false 1 5
      (by decide) (by decide) (by decide)
  · exact c7_fence_relative_indent.2.2.1 ⟨.TEXT, "a", 2, 4⟩ 2 (by decide)
  · exact c7_fence_relative_indent.2.2.1 ⟨.TEXT, "b", 3, 0⟩ 2 (by decide)


/-! ## Claim C5: conditional blocks -/

theorem paraText_texts (body : List Token) (r0 : Token) (rest2 : List Token)
    (hb : ∀ t ∈ body, t.type = .TEXT) (hr : r0.type ≠ .TEXT) :
    paraText (body ++ r0 :: rest2) = .ok (body.map Token.value, r0 :: rest2) := by
  induction body with
  | nil =>
    rw [List.nil_append, paraText.eq_def]
    simp [if_neg hr]
  | cons t b2 ih =>
    have ht := hb t (by simp)
    have ih2 := ih (fun x hx => hb x (by simp [hx]))
    rw [List.cons_append, paraText.eq_def]
    simp only [ht, if_pos rfl]
    cases hb2 : b2 ++ r0 :: rest2 with
    | nil => simp at hb2
    | cons u r =>
      simp only [hb2] at ih2 ⊢
      rw [ih2]
      simp [if_pos rfl]

theorem blankSkip_nonblank (t : Token) (rest : List Token)
    (h : t.type ≠ .BLANK) : blankSkip (t :: rest) = .ok (t :: rest) := by
  rw [blankSkip.eq_def]
  simp [if_neg h]

theorem parseParagraphT_texts (b0 : Token) (body : List Token) (r0 : Token)
    (rest2 : List Token)
    (hb : ∀ t ∈ b0 :: body, t.type = .TEXT)
    (h1 : r0.type ≠ .TEXT) (h2 : r0.type ≠ .BLANK) :
    parseParagraphT ((b0 :: body) ++ r0 :: rest2) =
      .ok (.paragraph ((b0 :: body).map Token.value) b0.line r0.line,
        r0 :: rest2) := by
  rw [List.cons_append, parseParagraphT]
  rw [show (b0 :: (body ++ r0 :: rest2)) = (b0 :: body) ++ r0 :: rest2 from rfl]
  rw [paraText_texts (b0 :: body) r0 rest2 hb h1]
  simp [blankSkip_nonblank r0 rest2 h2, curLine]


theorem condLoop_texts (f : Nat) (b0 : Token) (body : List Token)
    (stopTok : Token) (rest2 : List Token)
    (hb : ∀ t ∈ b0 :: body, t.type = .TEXT)
    (hstop : stopTok.type = .CONDITIONAL_BLOCK_CLOSE ∨ stopTok.type = .EOF) :
    prun (f + 2) (.condLoop ((b0 :: body) ++ stopTok :: rest2)) =
      .okL [.paragraph ((b0 :: body).map Token.value) b0.line stopTok.line]
        (stopTok :: rest2) := by
  have hb0 := hb b0 (by simp)
  have hs1 : stopTok.type ≠ .TEXT := by
    rcases hstop with h | h <;> rw [h] <;> decide
  have hs2 : stopTok.type ≠ .BLANK := by
    rcases hstop with h | h <;> rw [h] <;> decide
  have hblock : prun (f + 1) (.block ((b0 :: body) ++ stopTok :: rest2)) =
      .okN (.paragraph ((b0 :: body).map Token.value) b0.line stopTok.line)
        (stopTok :: rest2) := by
    rw [List.cons_append, prun.eq_def]
    simp only [hb0]
    rw [show (b0 :: (body ++ stopTok :: rest2)) = (b0 :: body) ++ stopTok :: rest2 from rfl]
    rw [parseParagraphT_texts b0 body stopTok rest2 hb hs1 hs2]
    rfl
  have hstoploop : prun (f + 1) (.condLoop (stopTok :: rest2)) =
      .okL [] (stopTok :: rest2) := by
    rw [prun.eq_def]
    rcases hstop with h | h <;> simp [h]
  rw [List.cons_append, prun.eq_def]
  simp only [hb0]
  rw [List.cons_append] at hblock
  simp only [hblock, hstoploop]
  simp [hb0]


theorem cond_bad_language (f : Nat) (openTok : Token) (rest : List Token)
    (hr : rest ≠ [])
    (hsw : startsWithL ":::".toList openTok.value.toList = true)
    (h1 : condLanguage openTok.value ≠ "python")
    (h2 : condLanguage openTok.value ≠ "js") :
    prun (f + 1) (.cond (openTok :: rest)) =
      .err (.valueError ("Invalid conditional block language: "
        ++ condLanguage openTok.value ++ ". Must be 'python' or 'js'")) := by
  rw [prun.eq_def]
  simp only [advanceT_cons openTok rest hr, hsw]
  have : ¬ (condLanguage openTok.value = "python" ∨ condLanguage openTok.value = "js") := by
    rintro (h | h)
    · exact h1 h
    · exact h2 h
  simp [this]

theorem cond_success (f : Nat) (openTok b0 : Token) (body : List Token)
    (closeTok : Token) (rest3 : List Token)
    (hsw : startsWithL ":::".toList openTok.value.toList = true)
    (hl : condLanguage openTok.value = "python" ∨ condLanguage openTok.value = "js")
    (hb : ∀ t ∈ b0 :: body, t.type = .TEXT)
    (hc : closeTok.type = .CONDITIONAL_BLOCK_CLOSE)
    (hr : rest3 ≠ []) :
    prun (f + 3) (.cond (openTok :: ((b0 :: body) ++ closeTok :: rest3))) =
      .okN (.conditionalBlock (condLanguage openTok.value)
        [.paragraph ((b0 :: body).map Token.value) b0.line closeTok.line]
        openTok.indent openTok.line (closeTok.line + 1)) rest3 := by
  rw [prun.eq_def]
  simp only [advanceT_cons openTok ((b0 :: body) ++ closeTok :: rest3) (by simp), hsw]
  simp only [if_pos hl]
  rw [condLoop_texts f b0 body closeTok rest3 hb (Or.inl hc)]
  simp only [hc, advanceT_cons closeTok rest3 hr]
  simp

theorem cond_missing_close (f : Nat) (openTok b0 : Token) (body : List Token)
    (eofTok : Token)
    (hsw : startsWithL ":::".toList openTok.value.toList = true)
    (hl : condLanguage openTok.value = "python" ∨ condLanguage openTok.value = "js")
    (hb : ∀ t ∈ b0 :: body, t.type = .TEXT)
    (he : eofTok.type = .EOF) :
    prun (f + 3) (.cond (openTok :: ((b0 :: body) ++ [eofTok]))) =
      .err (.valueError ("Missing closing tag ':::' for conditional block starting at line "
        ++ toString openTok.line)) := by
  rw [prun.eq_def]
  simp only [advanceT_cons openTok ((b0 :: body) ++ [eofTok]) (by simp), hsw]
  simp only [if_pos hl]
  rw [condLoop_texts f b0 body eofTok [] hb (Or.inr he)]
  have : eofTok.type ≠ .CONDITIONAL_BLOCK_CLOSE := by rw [he]; decide
  simp [this]


theorem condPrint (f : Nat) (lang : String) (vals : List String)
    (a b2 ind s l : Nat) (out : List String) (bflag : Bool)
    (hvals : ∀ v ∈ vals, pyStripWs v = v) :
    vrun (f + 2) (.conditionalBlock lang [.paragraph vals a b2] ind s l)
        ⟨out, 0, bflag⟩ =
      .ok ⟨out ++ (":::" ++ lang) :: (vals ++ [":::"]), 0, bflag⟩ := by
  rw [vrun.eq_def]
  simp only []
  rw [preBlocksGo.eq_def]
  simp only [if_neg (by omega : ¬ 0 < 0)]
  have hpara : vrun (f + 1) (.paragraph vals a b2)
      (addLine ⟨out, 0, bflag⟩ (":::" ++ lang)) =
      .ok ⟨(out ++ [spaces 0 ++ (":::" ++ lang)]) ++
        vals.map (fun x => spaces (2 * 0) ++ pyStripWs x), 0, bflag⟩ := by
    rw [show addLine ⟨out, 0, bflag⟩ (":::" ++ lang) =
      (⟨out ++ [spaces (2 * 0) ++ (":::" ++ lang)], 0, bflag⟩ : PState) from rfl]
    have : vrun (f + 1) (.paragraph vals a b2)
        ⟨out ++ [spaces (2 * 0) ++ (":::" ++ lang)], 0, bflag⟩ =
        .ok (paraGo vals ⟨out ++ [spaces (2 * 0) ++ (":::" ++ lang)], 0, bflag⟩) := rfl
    rw [this, paraGo_spec]
  rw [hpara]
  have hmap : vals.map (fun x => spaces (2 * 0) ++ pyStripWs x) = vals := by
    rw [show (2 * 0 : Nat) = 0 from rfl, spaces_zero]
    rw [List.map_congr_left (fun x hx => by rw [empty_append_str, hvals x hx])]
    exact List.map_id vals
  simp only [hmap]
  simp [preBlocksGo, addLine_eq, spaces_zero, empty_append_str]

/-- **C5.** Conditional blocks.  (1) An opening tag whose language
(`value[3:].strip()`) is outside the fixed set `{python, js}` fails (a
`ValueError`, fatal).  (2) With an allowed language, the body is
collected until the closing `:::` marker *regardless of any token's
indent* (no indent hypotheses appear: the open, body and close tokens
carry arbitrary `indent` fields), here for a body of consecutive text
tokens, which parse into one paragraph.  (3) A missing closing marker
before `EOF` fails.  (4) The printer re-emits the block between the
original `:::<language>` and `:::` markers, with a plain-text body whose
lines are `strip()`-invariant reproduced unchanged. -/
theorem c5_conditional_block :
    (∀ (f : Nat) (openTok : Token) (rest : List Token),
      rest ≠ [] →
      startsWithL ":::".toList openTok.value.toList = true →
      condLanguage openTok.value ≠ "python" →
      condLanguage openTok.value ≠ "js" →
      prun (f + 1) (.cond (openTok :: rest)) =
        .err (.valueError ("Invalid conditional block language: "
          ++ condLanguage openTok.value ++ ". Must be 'python' or 'js'"))) ∧
    (∀ (f : Nat) (openTok b0 : Token) (body : List Token)
      (closeTok : Token) (rest3 : List Token),
      startsWithL ":::".toList openTok.value.toList = true →
      (condLanguage openTok.value = "python" ∨ condLanguage openTok.value = "js") →
      (∀ t ∈ b0 :: body, t.type = .TEXT) →
      closeTok.type = .CONDITIONAL_BLOCK_CLOSE →
      rest3 ≠ [] →
      prun (f + 3) (.cond (openTok :: ((b0 :: body) ++ closeTok :: rest3))) =
        .okN (.conditionalBlock (condLanguage openTok.value)
          [.paragraph ((b0 :: body).map Token.value) b0.line closeTok.line]
          openTok.indent openTok.line (closeTok.line + 1)) rest3) ∧
    (∀ (f : Nat) (openTok b0 : Token) (body : List Token) (eofTok : Token),
      startsWithL ":::".toList openTok.value.toList = true →
      (condLanguage openTok.value = "python" ∨ condLanguage openTok.value = "js") →
      (∀ t ∈ b0 :: body, t.type = .TEXT) →
      eofTok.type = .EOF →
      prun (f + 3) (.cond (openTok :: ((b0 :: body) ++ [eofTok]))) =
        .err (.valueError ("Missing closing tag ':::' for conditional block starting at line "
          ++ toString openTok.line))) ∧
    (∀ (f : Nat) (lang : String) (vals : List String)
      (a b2 ind s l : Nat) (out : List String) (bflag : Bool),
      (∀ v ∈ vals, pyStripWs v = v) →
      vrun (f + 2) (.conditionalBlock lang [.paragraph vals a b2] ind s l)
          ⟨out, 0, bflag⟩ =
        .ok ⟨out ++ (":::" ++ lang) :: (vals ++ [":::"]), 0, bflag⟩) := by
  exact ⟨cond_bad_language, cond_success, cond_missing_close,
    fun f lang vals a b2 ind s l out bflag h =>
      condPrint f lang vals a b2 ind s l out bflag h⟩

/-- Witness for C5: `:::ruby` fails; `:::python` with a `foo` body and a
closing marker at a *different* indent (2 vs 0) parses; the same block
without the closing marker fails; printing round-trips
`:::python / foo / :::`. -/
theorem c5_conditional_block_witness :
    prun 1 (.cond [⟨.CONDITIONAL_BLOCK_OPEN, ":::ruby", 1, 0⟩, ⟨.EOF, "", 2, 0⟩]) =
      .err (.valueError "Invalid conditional block language: ruby. Must be 'python' or 'js'") ∧
    prun 3 (.cond [⟨.CONDITIONAL_BLOCK_OPEN, ":::python", 1, 0⟩,
        ⟨.TEXT, "foo", 2, 0⟩, ⟨.CONDITIONAL_BLOCK_CLOSE, ":::", 3, 2⟩,
        ⟨.EOF, "", 4, 0⟩]) =
      .okN (.conditionalBlock "python" [.paragraph ["foo"] 2 3] 0 1 4)
        [⟨.EOF, "", 4, 0⟩] ∧
    prun 3 (.cond [⟨.CONDITIONAL_BLOCK_OPEN, ":::python", 1, 0⟩,
        ⟨.TEXT, "foo", 2, 0⟩, ⟨.EOF, "", 3, 0⟩]) =
      .err (.valueError "Missing closing tag ':::' for conditional block starting at line 1") ∧
    vrun 2 (.conditionalBlock "python" [.paragraph ["foo"] 2 3] 0 1 4)
        ⟨[], 0, false⟩ =
      .ok ⟨[":::python", "foo", ":::"], 0, false⟩ := by
  refine ⟨?_, ?_, ?_, ?_⟩
  · exact c5_conditional_block.1 0 ⟨.CONDITIONAL_BLOCK_OPEN, ":::ruby", 1, 0⟩
      [⟨.EOF, "", 2, 0⟩] (by decide) (by decide) (by decide) (by decide)
  · exact c5_conditional_block.2.1 0 ⟨.CONDITIONAL_BLOCK_OPEN, ":::python", 1, 0⟩
      ⟨.TEXT, "foo", 2, 0⟩ [] ⟨.CONDITIONAL_BLOCK_CLOSE, ":::", 3, 2⟩
      [⟨.EOF, "", 4, 0⟩] (by decide) (by decide) (by decide) (by decide) (by decide)
  · exact c5_conditional_block.2.2.1 0 ⟨.CONDITIONAL_BLOCK_OPEN, ":::python", 1, 0⟩
      ⟨.TEXT, "foo", 2, 0⟩ [] ⟨.EOF, "", 3, 0⟩
      (by decide) (by decide) (by decide) (by decide)
  · exact c5_conditional_block.2.2.2 0 "python" ["foo"] 2 3 0 1 4 [] false (by decide)


/-! ## Claim C6: admonition kinds -/

theorem admonUnrecognized (f : Nat) (kind title : String) (bs : List Node)
    (s l : Nat) (st : PState)
    (hk : kindToCallout (strLower kind) = none) :
    vrun (f + 1) (.admonition "!!!" kind title bs s l) st =
      .err (.notImplementedError
        (some ("Unsupported admonition kind: " ++ strLower kind))) := by
  rw [vrun.eq_def]
  show admonGo (fun b s => vrun f b s) "!!!" kind title bs st = _
  rw [admonGo, if_neg (by decide : ¬ ("!!!" : String) = "???"), if_pos rfl, hk]

theorem admonRecognized (f : Nat) (kind callout title : String)
    (s l : Nat) (out : List String) (ind : Nat) (b : Bool)
    (hk : kindToCallout (strLower kind) = some callout) :
    vrun (f + 1) (.admonition "!!!" kind title [] s l) ⟨out, ind, b⟩ =
      .ok ⟨out ++ (spaces (2 * ind) ++ ("<" ++ callout ++ ">")) ::
        ((if title ≠ "" then [spaces (2 * (ind + 1)) ++ ("**" ++ title ++ "**")] else []) ++
          [spaces (2 * ind) ++ ("</" ++ callout ++ ">")]), ind, b⟩ := by
  rw [vrun.eq_def]
  simp only [admonGo, hk]
  by_cases ht : title = ""
  · subst ht
    simp [preBlocksGo, addLine_eq, bumpIndent, dropIndent, List.append_assoc]
  · simp only [if_neg ht, ne_eq, ht, not_false_iff, if_pos]
    simp [preBlocksGo, addLine_eq, bumpIndent, dropIndent, ht, List.append_assoc]

theorem admonFoldable (f : Nat) (kind title : String)
    (s l : Nat) (out : List String) (ind : Nat) (b : Bool)
    (ht : title ≠ "") :
    vrun (f + 1) (.admonition "???" kind title [] s l) ⟨out, ind, b⟩ =
      .ok ⟨out ++ (spaces (2 * ind) ++ ("<Accordion title=\"" ++ title ++ "\">")) ::
        [spaces (2 * ind) ++ "</Accordion>"], ind, b⟩ := by
  rw [vrun.eq_def]
  simp only [admonGo]
  simp [preBlocksGo, addLine_eq, bumpIndent, dropIndent, ht, List.append_assoc]

theorem admonDefaultKind (v tag : String)
    (h : pySplitWsMax 2 v.toList = [tag]) :
    parseAdmHeader v = .ok (tag, "note", "") := by
  rw [parseAdmHeader, h]
  rfl

/-- **C6 counterexample.** The claim speaks of "five recognized kinds",
but `kind_to_callout` recognizes *six* pairwise distinct kinds (mapping
onto five callout names): besides note/warning/info/tip/danger, the kind
`"important"` is recognized and maps to `Warning` — printing an
`!!! important` admonition succeeds instead of failing as it would for an
unrecognized kind. -/
theorem c6_six_recognized_kinds :
    kindToCallout "note" = some "Note" ∧
    kindToCallout "warning" = some "Warning" ∧
    kindToCallout "info" = some "Info" ∧
    kindToCallout "tip" = some "Tip" ∧
    kindToCallout "danger" = some "Danger" ∧
    kindToCallout "important" = some "Warning" ∧
    List.Pairwise (· ≠ ·)
      ["note", "warning", "info", "tip", "danger", "important"] ∧
    vrun 1 (.admonition "!!!" "important" "" [] 1 2) ⟨[], 0, false⟩ =
      .ok ⟨["<Warning>", "</Warning>"], 0, false⟩ := by
  refine ⟨rfl, rfl, rfl, rfl, rfl, rfl, by decide, by decide⟩

/-- **C6 (amended).** For an admonition with tag `!!!`, each of the *six*
recognized kinds maps through the fixed table onto one of five callout
names (`important` maps to `Warning`); the kind defaults to `"note"` when
absent from the header; an unrecognized kind raises
`NotImplementedError` rather than being passed through; and the foldable
tag `???` renders an `<Accordion>` whose title is a `title` attribute
instead of bolded text (for `!!!` a title is bolded inside the callout,
conjunct 3). -/
theorem c6_admonition_mapping_amended :
    (kindToCallout "note" = some "Note" ∧
     kindToCallout "warning" = some "Warning" ∧
     kindToCallout "info" = some "Info" ∧
     kindToCallout "tip" = some "Tip" ∧
     kindToCallout "danger" = some "Danger" ∧
     kindToCallout "important" = some "Warning" ∧
     (∀ k, k ∉ ["note", "warning", "info", "tip", "danger", "important"] →
       kindToCallout k = none)) ∧
    (∀ (f : Nat) (kind title : String) (bs : List Node) (s l : Nat) (st : PState),
      kindToCallout (strLower kind) = none →
      vrun (f + 1) (.admonition "!!!" kind title bs s l) st =
        .err (.notImplementedError
          (some ("Unsupported admonition kind: " ++ strLower kind)))) ∧
    (∀ (f : Nat) (kind callout title : String) (s l : Nat)
      (out : List String) (ind : Nat) (b : Bool),
      kindToCallout (strLower kind) = some callout →
      vrun (f + 1) (.admonition "!!!" kind title [] s l) ⟨out, ind, b⟩ =
        .ok ⟨out ++ (spaces (2 * ind) ++ ("<" ++ callout ++ ">")) ::
          ((if title ≠ "" then
              [spaces (2 * (ind + 1)) ++ ("**" ++ title ++ "**")]
            else []) ++
            [spaces (2 * ind) ++ ("</" ++ callout ++ ">")]), ind, b⟩) ∧
    (∀ (f : Nat) (kind title : String) (s l : Nat)
      (out : List String) (ind : Nat) (b : Bool),
      title ≠ "" →
      vrun (f + 1) (.admonition "???" kind title [] s l) ⟨out, ind, b⟩ =
        .ok ⟨out ++ (spaces (2 * ind) ++ ("<Accordion title=\"" ++ title ++ "\">")) ::
          [spaces (2 * ind) ++ "</Accordion>"], ind, b⟩) ∧
    (∀ (v tag : String), pySplitWsMax 2 v.toList = [tag] →
      parseAdmHeader v = .ok (tag, "note", "")) := by
  refine ⟨⟨rfl, rfl, rfl, rfl, rfl, rfl, ?_⟩, admonUnrecognized,
    admonRecognized, admonFoldable, admonDefaultKind⟩
  intro k hk
  rw [kindToCallout]
  simp only [List.mem_cons, List.mem_singleton, not_or] at hk
  obtain ⟨h1, h2, h3, h4, h5, h6, _⟩ := hk
  simp [h1, h2, h3, h4, h5, h6]

/-- Witness for C6: a `danger` admonition with a bolded title, an
unrecognized kind `caution` failing, a foldable admonition with a title
attribute, and a bare `!!!` header defaulting to kind `note`. -/
theorem c6_admonition_mapping_amended_witness :
    vrun 1 (.admonition "!!!" "danger" "T" [] 1 2) ⟨[], 0, false⟩ =
      .ok ⟨["<Danger>", "  **T**", "</Danger>"], 0, false⟩ ∧
    vrun 1 (.admonition "!!!" "caution" "" [] 1 2) ⟨[], 0, false⟩ =
      .err (.notImplementedError (some "Unsupported admonition kind: caution")) ∧
    vrun 1 (.admonition "???" "note" "Fold me" [] 1 2) ⟨[], 0, false⟩ =
      .ok ⟨["<Accordion title=\"Fold me\">", "</Accordion>"], 0, false⟩ ∧
    parseAdmHeader "!!!" = .ok ("!!!", "note", "") ∧
    kindToCallout "caution" = none := by
  refine ⟨?_, ?_, ?_, ?_, ?_⟩
  · exact c6_admonition_mapping_amended.2.2.1 0 "danger" "Danger" "T" 1 2 [] 0 false rfl
  · exact c6_admonition_mapping_amended.2.1 0 "caution" "" [] 1 2 ⟨[], 0, false⟩ rfl
  · exact c6_admonition_mapping_amended.2.2.2.1 0 "note" "Fold me" 1 2 [] 0 false (by decide)
  · exact c6_admonition_mapping_amended.2.2.2.2 "!!!" "!!!" (by decide)
  · exact c6_admonition_mapping_amended.1.2.2.2.2.2.2 "caution" (by decide)


/-! ## Claim C9: list markers, trailing newline, empty input -/

/-- Shape predicate: each list item consists of exactly one paragraph
(the common case produced by `_parse_list_item` for single-line items). -/
inductive ItemsPara : List Node → List (List String) → Prop where
  | nil : ItemsPara [] []
  | cons (ls : List String) (a b2 s l : Nat) (its : List Node)
      (ps : List (List String)) :
      ItemsPara its ps →
      ItemsPara (.listItem [.paragraph ls a b2] s l :: its) (ls :: ps)

/-- The lines `_visit_orderedlist` emits for single-paragraph items: the
marker of the item at (1-based) position `k` is `toString k ++ ". "`,
regardless of anything stored in the item. -/
def orderedLines (ind : Nat) : Nat → List (List String) → List String
  | _, [] => []
  | k, ls :: rest =>
    (spaces (2 * ind) ++ ((toString k ++ ". ") ++ pyJoin " " ls)) ::
      orderedLines ind (k + 1) rest

/-- The lines `_visit_unorderedlist` emits: every item gets the same
fixed `"* "` marker. -/
def unorderedLines (ind : Nat) (ps : List (List String)) : List String :=
  ps.map (fun ls => spaces (2 * ind) ++ ("* " ++ pyJoin " " ls))

theorem itemsOGo_paras (rv : Node → PState → VOut) (its : List Node)
    (ps : List (List String)) (h : ItemsPara its ps) :
    ∀ (k : Nat) (out : List String) (ind : Nat) (b : Bool),
      itemsOGo rv its k ⟨out, ind, b⟩ =
        .ok ⟨out ++ orderedLines ind k ps, ind, b⟩ := by
  induction h with
  | nil => intro k out ind b; simp [itemsOGo, orderedLines]
  | cons ls a b2 s l its2 ps2 h2 ih =>
    intro k out ind bb
    have step : itemsOGo rv (Node.listItem [Node.paragraph ls a b2] s l :: its2)
        k ⟨out, ind, bb⟩ =
        itemsOGo rv its2 (k + 1)
          (addLine ⟨out, ind, bb⟩ ((toString k ++ ". ") ++ pyJoin " " ls)) := rfl
    rw [step, addLine_eq, ih (k + 1), orderedLines]
    simp [List.append_assoc]

theorem itemsUGo_paras (rv : Node → PState → VOut) (its : List Node)
    (ps : List (List String)) (h : ItemsPara its ps) :
    ∀ (out : List String) (ind : Nat) (b : Bool),
      itemsUGo rv its ⟨out, ind, b⟩ =
        .ok ⟨out ++ unorderedLines ind ps, ind, b⟩ := by
  induction h with
  | nil => intro out ind b; simp [itemsUGo, unorderedLines]
  | cons ls a b2 s l its2 ps2 h2 ih =>
    intro out ind bb
    have step : itemsUGo rv (Node.listItem [Node.paragraph ls a b2] s l :: its2)
        ⟨out, ind, bb⟩ =
        itemsUGo rv its2
          (addLine ⟨out, ind, bb⟩ ("* " ++ pyJoin " " ls)) := rfl
    rw [step, addLine_eq, ih, unorderedLines]
    simp [unorderedLines, List.append_assoc]


theorem head_dropWhile_false (p : Char → Bool) (l : List Char) (c : Char)
    (h : (l.dropWhile p).head? = some c) : p c = false := by
  induction l with
  | nil => simp at h
  | cons d t ih =>
    rw [List.dropWhile_cons] at h
    by_cases hd : p d
    · simp only [hd, if_true] at h
      exact ih h
    · simp only [hd, Bool.false_eq_true, if_false] at h
      simp at h
      rw [← h]
      exact Bool.eq_false_iff.mpr hd

theorem pyRstripL_getLast (cs : List Char) (c : Char)
    (h : (pyRstripL cs).getLast? = some c) : isPySpace c = false := by
  rw [pyRstripL, List.getLast?_reverse] at h
  exact head_dropWhile_false isPySpace cs.reverse c h


theorem printAst_newline (fuel : Nat) (n : Node) (flag : Bool)
    (s : String) (b2 : Bool) (h : printAst fuel n flag = .ok s b2) :
    ∃ t, s = t ++ "\n" ∧ ∀ c, t.toList.getLast? = some c → c ≠ '\n' := by
  rw [printAst] at h
  cases hv : vrun fuel n ⟨[], 0, flag⟩ with
  | ok st =>
    rw [hv] at h
    simp only [PrintRes.ok.injEq] at h
    refine ⟨pyRstrip (pyJoin "\n" st.output), h.1.symm, ?_⟩
    intro c hc hcn
    have : isPySpace c = false := pyRstripL_getLast _ c hc
    rw [hcn] at this
    simp [isPySpace] at this
  | err e => rw [hv] at h; cases h
  | fuelOut => rw [hv] at h; cases h

theorem toMint_empty (fuel : Nat) (lexf : String → List Token)
    (fp : Option String) : toMint fuel lexf "" fp = .ok "" := rfl

theorem toMint_trailing_newline (fuel : Nat) (lexf : String → List Token)
    (md : String) (fp : Option String) (s : String)
    (hmd : md ≠ "") (h : toMint fuel lexf md fp = .ok s) :
    ∃ t, s = t ++ "\n" ∧ ∀ c, t.toList.getLast? = some c → c ≠ '\n' := by
  rw [toMint, if_neg hmd] at h
  cases hp : prun fuel (.doc (lexf md)) with
  | okN d rest =>
    rw [hp] at h
    have h2 : (match printAst fuel d false with
        | PrintRes.ok s _ => RRes.ok s
        | PrintRes.err e => RRes.err (withFilePath e fp)
        | PrintRes.fuelOut => RRes.fuelOut) = RRes.ok s := h
    cases hpr : printAst fuel d false with
    | ok s2 b2 =>
      rw [hpr] at h2
      simp only [RRes.ok.injEq] at h2
      subst h2
      exact printAst_newline fuel d false s2 b2 hpr
    | err e => rw [hpr] at h2; cases h2
    | fuelOut => rw [hpr] at h2; cases h2
  | okL ns rest => rw [hp] at h; cases h
  | err e => rw [hp] at h; cases h
  | fuelOut => rw [hp] at h; cases h

theorem itemNumeralIrrelevant (f : Nat) (li : Nat) (t1 t2 : Token)
    (rest : List Token) (hr : rest ≠ [])
    (hline : t1.line = t2.line)
    (hft : listItemFirstText t1.value = listItemFirstText t2.value) :
    prun f (.item li (t1 :: rest)) = prun f (.item li (t2 :: rest)) := by
  cases f with
  | zero => rfl
  | succ g =>
    rw [prun.eq_def]
    conv_rhs => rw [prun.eq_def]
    simp only [advanceT_cons t1 rest hr, advanceT_cons t2 rest hr, hft, hline]

/-- **C9.** (1) `to_mint("")` returns `""` with no error, for any fuel
and tokenizer.  (2) Whenever `to_mint` succeeds on a non-empty input, the
output ends with exactly one trailing newline: it is `t ++ "\n"` where
`t` does not end in a newline (`print` rstrips the joined buffer and
appends one `"\n"`).  (3) `_visit_orderedlist` prints the items of an
ordered list with markers `"1. "`, `"2. "`, ..., the item's 1-based
position in item order (see `orderedLines`).  (4) `_visit_unorderedlist`
gives every item the same fixed `"* "` marker.  (5) The literal number in
a source ordered-list marker is irrelevant: `_parse_list_item` depends on
the marker token only through its line and the text after the marker, so
two marker tokens differing only in their numeral parse identically. -/
theorem c9_list_markers_and_newline :
    (∀ (fuel : Nat) (lexf : String → List Token) (fp : Option String),
      toMint fuel lexf "" fp = .ok "") ∧
    (∀ (fuel : Nat) (lexf : String → List Token) (md : String)
      (fp : Option String) (s : String),
      md ≠ "" → toMint fuel lexf md fp = .ok s →
      ∃ t, s = t ++ "\n" ∧ ∀ c, t.toList.getLast? = some c → c ≠ '\n') ∧
    (∀ (f : Nat) (its : List Node) (ps : List (List String)) (s l : Nat)
      (out : List String) (ind : Nat) (b : Bool),
      ItemsPara its ps →
      vrun (f + 1) (.orderedList its s l) ⟨out, ind, b⟩ =
        .ok ⟨out ++ orderedLines ind 1 ps, ind, b⟩) ∧
    (∀ (f : Nat) (its : List Node) (ps : List (List String)) (s l : Nat)
      (out : List String) (ind : Nat) (b : Bool),
      ItemsPara its ps →
      vrun (f + 1) (.unorderedList its s l) ⟨out, ind, b⟩ =
        .ok ⟨out ++ unorderedLines ind ps, ind, b⟩) ∧
    (∀ (f : Nat) (li : Nat) (t1 t2 : Token) (rest : List Token),
      rest ≠ [] → t1.line = t2.line →
      listItemFirstText t1.value = listItemFirstText t2.value →
      prun f (.item li (t1 :: rest)) = prun f (.item li (t2 :: rest))) := by
  refine ⟨toMint_empty, toMint_trailing_newline, ?_, ?_, itemNumeralIrrelevant⟩
  · intro f its ps s l out ind b h
    exact itemsOGo_paras (fun b s => vrun f b s) its ps h 1 out ind b
  · intro f its ps s l out ind b h
    exact itemsUGo_paras (fun b s => vrun f b s) its ps h out ind b

/-- Witness for C9: the source markers `3. / 7. / 1.` print as
`1. / 2. / 3.`; bullets are uniformly `"* "`; the full pipeline output
ends in exactly one newline; `to_mint("")` is `""`; and `7. apple` parses
exactly like `1. apple`. -/
theorem c9_list_markers_and_newline_witness :
    toMint 0 (fun _ => []) "" none = .ok "" ∧
    (∃ t, ("1. apple\n2. pear\n3. fig\n" : String) = t ++ "\n" ∧
      ∀ c, t.toList.getLast? = some c → c ≠ '\n') ∧
    vrun 1 (.orderedList
        [.listItem [.paragraph ["apple"] 1 2] 1 2,
         .listItem [.paragraph ["pear"] 2 3] 2 3,
         .listItem [.paragraph ["fig"] 3 4] 3 4] 1 4) ⟨[], 0, false⟩ =
      .ok ⟨["1. apple", "2. pear", "3. fig"], 0, false⟩ ∧
    vrun 1 (.unorderedList
        [.listItem [.paragraph ["apple"] 1 2] 1 2,
         .listItem [.paragraph ["pear"] 2 3] 2 3] 1 3) ⟨[], 0, false⟩ =
      .ok ⟨["* apple", "* pear"], 0, false⟩ ∧
    prun 5 (.item 0 [⟨.OL_MARKER, "7. apple", 1, 0⟩, ⟨.EOF, "", 2, 0⟩]) =
      prun 5 (.item 0 [⟨.OL_MARKER, "1. apple", 1, 0⟩, ⟨.EOF, "", 2, 0⟩]) := by
  refine ⟨?_, ?_, ?_, ?_, ?_⟩
  · exact c9_list_markers_and_newline.1 0 (fun _ => []) none
  · exact c9_list_markers_and_newline.2.1 20
      (fun _ => [⟨.OL_MARKER, "3. apple", 1, 0⟩, ⟨.OL_MARKER, "7. pear", 2, 0⟩,
        ⟨.OL_MARKER, "1. fig", 3, 0⟩, ⟨.EOF, "", 4, 0⟩])
      "3. apple\n7. pear\n1. fig\n" none "1. apple\n2. pear\n3. fig\n"
      (by decide) (by decide)
  · exact c9_list_markers_and_newline.2.2.1 0 _ [["apple"], ["pear"], ["fig"]]
      1 4 [] 0 false (by repeat constructor)
  · exact c9_list_markers_and_newline.2.2.2.1 0 _ [["apple"], ["pear"]]
      1 3 [] 0 false (by repeat constructor)
  · exact c9_list_markers_and_newline.2.2.2.2 4 0 ⟨.OL_MARKER, "7. apple", 1, 0⟩
      ⟨.OL_MARKER, "1. apple", 1, 0⟩ [⟨.EOF, "", 2, 0⟩] (by decide) rfl rfl


/-! ## Claim C3: the error surface of `to_mint` -/

theorem withFilePath_pe (pe : ParseErrorData) (p : String) :
    withFilePath (.parseError pe) (some p) =
      (match pe.filePath with
       | none => PyError.parseError ⟨pe.message, pe.line, pe.token,
           pe.expected, pe.found, some p⟩
       | some _ => .parseError pe) := rfl

theorem withFilePath_noFp (e : PyError) : withFilePath e none = e := by
  cases e <;> rfl

theorem toMint_backfill_none (fuel : Nat) (lexf : String → List Token)
    (md : String) (p : String) (pe : ParseErrorData)
    (hmd : md ≠ "") (hp : prun fuel (.doc (lexf md)) = .err (.parseError pe))
    (hfp : pe.filePath = none) :
    toMint fuel lexf md (some p) =
      .err (.parseError ⟨pe.message, pe.line, pe.token, pe.expected,
        pe.found, some p⟩) := by
  rw [toMint, if_neg hmd, hp]
  show RRes.err (withFilePath (.parseError pe) (some p)) = _
  rw [withFilePath_pe, hfp]

theorem toMint_backfill_present (fuel : Nat) (lexf : String → List Token)
    (md : String) (fp : Option String) (pe : ParseErrorData) (q : String)
    (hmd : md ≠ "") (hp : prun fuel (.doc (lexf md)) = .err (.parseError pe))
    (hfp : pe.filePath = some q) :
    toMint fuel lexf md fp = .err (.parseError pe) := by
  rw [toMint, if_neg hmd, hp]
  show RRes.err (withFilePath (.parseError pe) fp) = _
  cases fp with
  | none => rw [withFilePath_noFp]
  | some p => rw [withFilePath_pe, hfp]

theorem toMint_valueError_raw (fuel : Nat) (lexf : String → List Token)
    (md : String) (fp : Option String) (m : String)
    (hmd : md ≠ "") (hp : prun fuel (.doc (lexf md)) = .err (.valueError m)) :
    toMint fuel lexf md fp = .err (.valueError m) := by
  rw [toMint, if_neg hmd, hp]
  cases fp <;> rfl

theorem toMint_notImplemented_raw (fuel : Nat) (lexf : String → List Token)
    (md : String) (fp : Option String) (d : Node) (rest : List Token)
    (m : Option String)
    (hmd : md ≠ "") (hp : prun fuel (.doc (lexf md)) = .okN d rest)
    (hpr : printAst fuel d false = .err (.notImplementedError m)) :
    toMint fuel lexf md fp = .err (.notImplementedError m) := by
  rw [toMint, if_neg hmd, hp]
  show (match printAst fuel d false with
    | PrintRes.ok s _ => RRes.ok s
    | PrintRes.err e => RRes.err (withFilePath e fp)
    | PrintRes.fuelOut => RRes.fuelOut) = _
  rw [hpr]
  cases fp <;> rfl

/-- **C3 counterexample.** Not every failure of `to_mint` surfaces as
the structured parse-error type: a conditional block with language
`ruby` raises a bare `ValueError` (no line, token, expected/found, and no
file path even though one was passed to `to_mint`), and an unsupported
admonition kind raises a bare `NotImplementedError` — both bypass the
`except ParseError` backfilling clause. -/
theorem c3_conditional_error_unstructured :
    toMint 20 (fun _ => [⟨.CONDITIONAL_BLOCK_OPEN, ":::ruby", 1, 0⟩,
        ⟨.CONDITIONAL_BLOCK_CLOSE, ":::", 2, 0⟩, ⟨.EOF, "", 3, 0⟩])
      ":::ruby\n:::\n" (some "docs/x.md") =
      .err (.valueError
        "Invalid conditional block language: ruby. Must be 'python' or 'js'") ∧
    toMint 20 (fun _ => [⟨.ADMONITION, "!!! caution", 1, 0⟩, ⟨.EOF, "", 2, 0⟩])
      "!!! caution\n" (some "docs/x.md") =
      .err (.notImplementedError (some "Unsupported admonition kind: caution")) := by
  exact ⟨by decide, by decide⟩

/-- **C3 (amended).** Failures raised as the structured `ParseError`
(structural and unterminated-construct errors) expose message, optional
line, offending token, expected/found and file path, and `to_mint`
backfills the file path exactly when the inner stages did not have it
(conjuncts 1-2); but conditional-block failures and
unsupported-admonition-kind failures raise bare `ValueError` /
`NotImplementedError` that carry none of those fields and bypass the
backfilling (conjuncts 3-4). -/
theorem c3_error_surface_amended :
    (∀ (fuel : Nat) (lexf : String → List Token) (md p : String)
      (pe : ParseErrorData),
      md ≠ "" → prun fuel (.doc (lexf md)) = .err (.parseError pe) →
      pe.filePath = none →
      toMint fuel lexf md (some p) =
        .err (.parseError ⟨pe.message, pe.line, pe.token, pe.expected,
          pe.found, some p⟩)) ∧
    (∀ (fuel : Nat) (lexf : String → List Token) (md : String)
      (fp : Option String) (pe : ParseErrorData) (q : String),
      md ≠ "" → prun fuel (.doc (lexf md)) = .err (.parseError pe) →
      pe.filePath = some q →
      toMint fuel lexf md fp = .err (.parseError pe)) ∧
    (∀ (fuel : Nat) (lexf : String → List Token) (md : String)
      (fp : Option String) (m : String),
      md ≠ "" → prun fuel (.doc (lexf md)) = .err (.valueError m) →
      toMint fuel lexf md fp = .err (.valueError m)) ∧
    (∀ (fuel : Nat) (lexf : String → List Token) (md : String)
      (fp : Option String) (d : Node) (rest : List Token) (m : Option String),
      md ≠ "" → prun fuel (.doc (lexf md)) = .okN d rest →
      printAst fuel d false = .err (.notImplementedError m) →
      toMint fuel lexf md fp = .err (.notImplementedError m)) :=
  ⟨toMint_backfill_none, toMint_backfill_present, toMint_valueError_raw,
    toMint_notImplemented_raw⟩

/-- Witness for C3 (amended): the unclosed-fence `ParseError` gets the
file path `a.md` backfilled, while the `ruby` conditional-block
`ValueError` passes through unmodified despite the same path being
given. -/
theorem c3_error_surface_amended_witness :
    toMint 20 (fun _ => [⟨.FENCE, "```python", 1, 0⟩, ⟨.TEXT, "x = 1", 2, 0⟩,
        ⟨.EOF, "", 3, 0⟩]) "```python\nx = 1\n" (some "a.md") =
      .err (.parseError ⟨"Unclosed code block", some 1,
        some ⟨.FENCE, "```python", 1, 0⟩, some "closing fence '```'",
        some "end of file", some "a.md"⟩) ∧
    toMint 20 (fun _ => [⟨.CONDITIONAL_BLOCK_OPEN, ":::ruby", 1, 0⟩,
        ⟨.CONDITIONAL_BLOCK_CLOSE, ":::", 2, 0⟩, ⟨.EOF, "", 3, 0⟩])
      ":::ruby\n:::\n" (some "b.md") =
      .err (.valueError
        "Invalid conditional block language: ruby. Must be 'python' or 'js'") := by
  refine ⟨?_, ?_⟩
  · exact c3_error_surface_amended.1 20
      (fun _ => [⟨.FENCE, "```python", 1, 0⟩, ⟨.TEXT, "x = 1", 2, 0⟩,
        ⟨.EOF, "", 3, 0⟩]) "```python\nx = 1\n" "a.md"
      ⟨"Unclosed code block", some 1, some ⟨.FENCE, "```python", 1, 0⟩,
        some "closing fence '```'", some "end of file", none⟩
      (by decide) rfl rfl
  · exact c3_error_surface_amended.2.2.1 20
      (fun _ => [⟨.CONDITIONAL_BLOCK_OPEN, ":::ruby", 1, 0⟩,
        ⟨.CONDITIONAL_BLOCK_CLOSE, ":::", 2, 0⟩, ⟨.EOF, "", 3, 0⟩])
      ":::ruby\n:::\n" (some "b.md")
      "Invalid conditional block language: ruby. Must be 'python' or 'js'"
      (by decide) rfl


/-! ## The printed-first-heading flag: predicates and invariance -/

/-- Nodes whose subtree contains no `Heading`. -/
inductive NoHeading : Node → Prop where
  | document : (∀ b ∈ bs, NoHeading b) → NoHeading (.document bs s l)
  | paragraph : NoHeading (.paragraph ls s l)
  | codeBlock : NoHeading (.codeBlock lang meta c s l)
  | listItem : (∀ b ∈ bs, NoHeading b) → NoHeading (.listItem bs s l)
  | unorderedList : (∀ b ∈ its, NoHeading b) → NoHeading (.unorderedList its s l)
  | orderedList : (∀ b ∈ its, NoHeading b) → NoHeading (.orderedList its s l)
  | quoteBlock : NoHeading (.quoteBlock ls s l)
  | tab : (∀ b ∈ bs, NoHeading b) → NoHeading (.tab ttl bs s l)
  | tabBlock : (∀ b ∈ ts, NoHeading b) → NoHeading (.tabBlock ts s l)
  | admonition : (∀ b ∈ bs, NoHeading b) →
      NoHeading (.admonition tag kind title bs s l)
  | frontMatter : NoHeading (.frontMatter c s l)
  | htmlBlock : NoHeading (.htmlBlock c s l)
  | conditionalBlock : (∀ b ∈ bs, NoHeading b) →
      NoHeading (.conditionalBlock lang bs ind s l)

/-- Nodes whose subtree contains a `Heading`. -/
inductive HasHeading : Node → Prop where
  | heading : HasHeading (.heading lvl v s l)
  | document : b ∈ bs → HasHeading b → HasHeading (.document bs s l)
  | listItem : b ∈ bs → HasHeading b → HasHeading (.listItem bs s l)
  | unorderedList : b ∈ its → HasHeading b → HasHeading (.unorderedList its s l)
  | orderedList : b ∈ its → HasHeading b → HasHeading (.orderedList its s l)
  | tab : b ∈ bs → HasHeading b → HasHeading (.tab ttl bs s l)
  | tabBlock : b ∈ ts → HasHeading b → HasHeading (.tabBlock ts s l)
  | admonition : b ∈ bs → HasHeading b →
      HasHeading (.admonition tag kind title bs s l)
  | conditionalBlock : b ∈ bs → HasHeading b →
      HasHeading (.conditionalBlock lang bs ind s l)

theorem NoHeading.attr {n : Node} {bs : List Node} (h : NoHeading n)
    (ha : n.blocksAttr = some bs) : ∀ x ∈ bs, NoHeading x := by
  cases h <;> simp only [Node.blocksAttr, Option.some.injEq] at ha <;>
    first
      | (subst ha; assumption)
      | cases ha

/-- Re-align the flag of a successful printer result: only the heading
visitor reads or writes `printed_first_heading`, so for heading-free
subtrees the run is the same up to the flag value carried through. -/
def reflagV (b : Bool) : VOut → VOut
  | .ok st => .ok ⟨st.output, st.indentLevel, b⟩
  | .err e => .err e
  | .fuelOut => .fuelOut


/-- `rv` treats the flag opaquely on heading-free nodes. -/
def IndepAt (rv : Node → PState → VOut) : Prop :=
  ∀ x, NoHeading x → ∀ out ind bb,
    rv x ⟨out, ind, bb⟩ = reflagV bb (rv x ⟨out, ind, false⟩)

theorem IndepAt.flag_false {rv : Node → PState → VOut} (H : IndepAt rv)
    {x : Node} (hx : NoHeading x) {out : List String} {ind : Nat}
    {st : PState} (h : rv x ⟨out, ind, false⟩ = .ok st) :
    st.printedFirstHeading = false := by
  have h2 := H x hx out ind false
  rw [h, reflagV] at h2
  have h3 : st = ⟨st.output, st.indentLevel, false⟩ := by
    injection h2
  rw [show st.printedFirstHeading = (⟨st.output, st.indentLevel, false⟩ : PState).printedFirstHeading from by rw [← h3]]

theorem docBlocksGo_indep (rv : Node → PState → VOut) (H : IndepAt rv)
    (bs : List Node) (hbs : ∀ x ∈ bs, NoHeading x) :
    ∀ (i : Nat) (out : List String) (ind : Nat) (bb : Bool),
      docBlocksGo rv bs i ⟨out, ind, bb⟩ =
        reflagV bb (docBlocksGo rv bs i ⟨out, ind, false⟩) := by
  induction bs with
  | nil => intro i out ind bb; rfl
  | cons b rest ih =>
    intro i out ind bb
    have hb := hbs b (by simp)
    have hrest := fun x hx => hbs x (List.mem_cons_of_mem _ hx)
    rw [docBlocksGo, docBlocksGo, H b hb out ind bb]
    cases hfb : rv b ⟨out, ind, false⟩ with
    | err e => rfl
    | fuelOut => rfl
    | ok st1 =>
      obtain ⟨o1, i1, f1⟩ := st1
      have hf1 : f1 = false := IndepAt.flag_false H hb hfb
      subst hf1
      show docBlocksGo rv rest (i + 1)
          (if 0 < i then addLine ⟨o1, i1, bb⟩ "" else ⟨o1, i1, bb⟩) =
        reflagV bb (docBlocksGo rv rest (i + 1)
          (if 0 < i then addLine ⟨o1, i1, false⟩ "" else ⟨o1, i1, false⟩))
      by_cases hi : 0 < i
      · simp only [if_pos hi, addLine_eq]
        exact ih hrest (i + 1) _ i1 bb
      · simp only [if_neg hi]
        exact ih hrest (i + 1) o1 i1 bb


theorem preBlocksGo_indep (rv : Node → PState → VOut) (H : IndepAt rv)
    (bs : List Node) (hbs : ∀ x ∈ bs, NoHeading x) :
    ∀ (i : Nat) (out : List String) (ind : Nat) (bb : Bool),
      preBlocksGo rv bs i ⟨out, ind, bb⟩ =
        reflagV bb (preBlocksGo rv bs i ⟨out, ind, false⟩) := by
  induction bs with
  | nil => intro i out ind bb; rfl
  | cons b rest ih =>
    intro i out ind bb
    have hb := hbs b (by simp)
    have hrest := fun x hx => hbs x (List.mem_cons_of_mem _ hx)
    rw [preBlocksGo, preBlocksGo]
    by_cases hi : 0 < i
    · simp only [if_pos hi, addLine_eq]
      rw [H b hb _ ind bb]
      cases hfb : rv b ⟨out ++ [spaces (2 * ind) ++ ""], ind, false⟩ with
      | err e => rfl
      | fuelOut => rfl
      | ok st1 =>
        obtain ⟨o1, i1, f1⟩ := st1
        have hf1 : f1 = false := IndepAt.flag_false H hb hfb
        subst hf1
        exact ih hrest (i + 1) o1 i1 bb
    · simp only [if_neg hi]
      rw [H b hb out ind bb]
      cases hfb : rv b ⟨out, ind, false⟩ with
      | err e => rfl
      | fuelOut => rfl
      | ok st1 =>
        obtain ⟨o1, i1, f1⟩ := st1
        have hf1 : f1 = false := IndepAt.flag_false H hb hfb
        subst hf1
        exact ih hrest (i + 1) o1 i1 bb

theorem itemBlocksGo_indep (rv : Node → PState → VOut) (H : IndepAt rv)
    (marker : String) (bs : List Node) (hbs : ∀ x ∈ bs, NoHeading x) :
    ∀ (i : Nat) (out : List String) (ind : Nat) (bb : Bool),
      itemBlocksGo rv marker bs i ⟨out, ind, bb⟩ =
        reflagV bb (itemBlocksGo rv marker bs i ⟨out, ind, false⟩) := by
  induction bs with
  | nil => intro i out ind bb; rfl
  | cons b rest ih =>
    intro i out ind bb
    have hb := hbs b (by simp)
    have hrest := fun x hx => hbs x (List.mem_cons_of_mem _ hx)
    rw [itemBlocksGo.eq_def]
    conv_rhs => rw [itemBlocksGo.eq_def]
    simp only []
    by_cases hi : i = 0
    · simp only [if_pos hi]
      cases hpl : paragraphLines b with
      | some ls =>
        rw [addLine_eq, addLine_eq]
        exact ih hrest 1 _ ind bb
      | none =>
        rw [addLine_eq, addLine_eq, H b hb _ ind bb]
        cases hfb : rv b ⟨out ++ [spaces (2 * ind) ++ marker], ind, false⟩ with
        | err e => rfl
        | fuelOut => rfl
        | ok st1 =>
          obtain ⟨o1, i1, f1⟩ := st1
          have hf1 : f1 = false := IndepAt.flag_false H hb hfb
          subst hf1
          exact ih hrest 1 o1 i1 bb
    · simp only [if_neg hi]
      rw [show bumpIndent ⟨out, ind, bb⟩ = (⟨out, ind + 1, bb⟩ : PState) from rfl,
        show bumpIndent ⟨out, ind, false⟩ = (⟨out, ind + 1, false⟩ : PState) from rfl,
        H b hb out (ind + 1) bb]
      cases hfb : rv b ⟨out, ind + 1, false⟩ with
      | err e => rfl
      | fuelOut => rfl
      | ok st1 =>
        obtain ⟨o1, i1, f1⟩ := st1
        have hf1 : f1 = false := IndepAt.flag_false H hb hfb
        subst hf1
        exact ih hrest (i + 1) o1 (i1 - 1) bb

theorem itemsUGo_indep (rv : Node → PState → VOut) (H : IndepAt rv)
    (its : List Node) (hits : ∀ x ∈ its, NoHeading x) :
    ∀ (out : List String) (ind : Nat) (bb : Bool),
      itemsUGo rv its ⟨out, ind, bb⟩ =
        reflagV bb (itemsUGo rv its ⟨out, ind, false⟩) := by
  induction its with
  | nil => intro out ind bb; rfl
  | cons it rest ih =>
    intro out ind bb
    have hit := hits it (by simp)
    have hrest := fun x hx => hits x (List.mem_cons_of_mem _ hx)
    rw [itemsUGo, itemsUGo]
    cases hattr : it.blocksAttr with
    | none => rfl
    | some bs2 =>
      have hbs2 := NoHeading.attr hit hattr
      simp only []
      rw [itemBlocksGo_indep rv H "* " bs2 hbs2 0 out ind bb]
      cases hfb : itemBlocksGo rv "* " bs2 0 ⟨out, ind, false⟩ with
      | err e => rfl
      | fuelOut => rfl
      | ok st1 =>
        obtain ⟨o1, i1, f1⟩ := st1
        have hf1 : f1 = false := by
          have h2 := itemBlocksGo_indep rv H "* " bs2 hbs2 0 out ind false
          rw [hfb, reflagV] at h2
          injection h2 with h3
          injection h3
        subst hf1
        exact ih hrest o1 i1 bb

theorem itemsOGo_indep (rv : Node → PState → VOut) (H : IndepAt rv)
    (its : List Node) (hits : ∀ x ∈ its, NoHeading x) :
    ∀ (k : Nat) (out : List String) (ind : Nat) (bb : Bool),
      itemsOGo rv its k ⟨out, ind, bb⟩ =
        reflagV bb (itemsOGo rv its k ⟨out, ind, false⟩) := by
  induction its with
  | nil => intro k out ind bb; rfl
  | cons it rest ih =>
    intro k out ind bb
    have hit := hits it (by simp)
    have hrest := fun x hx => hits x (List.mem_cons_of_mem _ hx)
    rw [itemsOGo, itemsOGo]
    cases hattr : it.blocksAttr with
    | none => rfl
    | some bs2 =>
      have hbs2 := NoHeading.attr hit hattr
      simp only []
      rw [itemBlocksGo_indep rv H (toString k ++ ". ") bs2 hbs2 0 out ind bb]
      cases hfb : itemBlocksGo rv (toString k ++ ". ") bs2 0 ⟨out, ind, false⟩ with
      | err e => rfl
      | fuelOut => rfl
      | ok st1 =>
        obtain ⟨o1, i1, f1⟩ := st1
        have hf1 : f1 = false := by
          have h2 := itemBlocksGo_indep rv H (toString k ++ ". ") bs2 hbs2 0 out ind false
          rw [hfb, reflagV] at h2
          injection h2 with h3
          injection h3
        subst hf1
        exact ih hrest (k + 1) o1 i1 bb

theorem tabsGo_indep (rv : Node → PState → VOut) (H : IndepAt rv)
    (ts : List Node) (hts : ∀ x ∈ ts, NoHeading x) :
    ∀ (out : List String) (ind : Nat) (bb : Bool),
      tabsGo rv ts ⟨out, ind, bb⟩ =
        reflagV bb (tabsGo rv ts ⟨out, ind, false⟩) := by
  induction ts with
  | nil => intro out ind bb; rfl
  | cons t rest ih =>
    intro out ind bb
    have ht := hts t (by simp)
    have hrest := fun x hx => hts x (List.mem_cons_of_mem _ hx)
    rw [tabsGo, tabsGo]
    cases httl : t.titleAttr with
    | none => simp only []; rfl
    | some ttl =>
      cases hattr : t.blocksAttr with
      | none => simp only []; rfl
      | some bs2 =>
        have hbs2 := NoHeading.attr ht hattr
        simp only []
        rw [show bumpIndent (addLine ⟨out, ind, bb⟩
            ("<Tab title=\"" ++ pyStrip ttl [backtick] ++ "\">")) =
          (⟨out ++ [spaces (2 * ind) ++ ("<Tab title=\"" ++ pyStrip ttl [backtick] ++ "\">")],
            ind + 1, bb⟩ : PState) from rfl]
        rw [show bumpIndent (addLine ⟨out, ind, false⟩
            ("<Tab title=\"" ++ pyStrip ttl [backtick] ++ "\">")) =
          (⟨out ++ [spaces (2 * ind) ++ ("<Tab title=\"" ++ pyStrip ttl [backtick] ++ "\">")],
            ind + 1, false⟩ : PState) from rfl]
        rw [preBlocksGo_indep rv H bs2 hbs2 0
          (out ++ [spaces (2 * ind) ++ ("<Tab title=\"" ++ pyStrip ttl [backtick] ++ "\">")])
          (ind + 1) bb]
        cases hfb : preBlocksGo rv bs2 0
            ⟨out ++ [spaces (2 * ind) ++ ("<Tab title=\"" ++ pyStrip ttl [backtick] ++ "\">")],
              ind + 1, false⟩ with
        | err e => rfl
        | fuelOut => rfl
        | ok st2 =>
          obtain ⟨o2, i2, f2⟩ := st2
          have hf2 : f2 = false := by
            have h2 := preBlocksGo_indep rv H bs2 hbs2 0
              (out ++ [spaces (2 * ind) ++ ("<Tab title=\"" ++ pyStrip ttl [backtick] ++ "\">")])
              (ind + 1) false
            rw [hfb, reflagV] at h2
            injection h2 with h3
            injection h3
          subst hf2
          simp only [reflagV]
          rw [show addLine (dropIndent ⟨o2, i2, bb⟩) "</Tab>" =
            (⟨o2 ++ [spaces (2 * (i2 - 1)) ++ "</Tab>"], i2 - 1, bb⟩ : PState) from rfl]
          rw [show addLine (dropIndent ⟨o2, i2, false⟩) "</Tab>" =
            (⟨o2 ++ [spaces (2 * (i2 - 1)) ++ "</Tab>"], i2 - 1, false⟩ : PState) from rfl]
          exact ih hrest (o2 ++ [spaces (2 * (i2 - 1)) ++ "</Tab>"]) (i2 - 1) bb

theorem admonGo_indep (rv : Node → PState → VOut) (H : IndepAt rv)
    (tag kind title : String) (bs : List Node) (hbs : ∀ x ∈ bs, NoHeading x)
    (out : List String) (ind : Nat) (bb : Bool) :
    admonGo rv tag kind title bs ⟨out, ind, bb⟩ =
      reflagV bb (admonGo rv tag kind title bs ⟨out, ind, false⟩) := by
  rw [admonGo, admonGo]
  by_cases h1 : tag = "???"
  · simp only [if_pos h1]
    by_cases h2 : title ≠ ""
    · simp only [if_pos h2]
      rw [show bumpIndent (addLine ⟨out, ind, bb⟩ ("<Accordion title=\"" ++ title ++ "\">")) =
        (⟨out ++ [spaces (2 * ind) ++ ("<Accordion title=\"" ++ title ++ "\">")], ind + 1, bb⟩ : PState) from rfl]
      rw [show bumpIndent (addLine ⟨out, ind, false⟩ ("<Accordion title=\"" ++ title ++ "\">")) =
        (⟨out ++ [spaces (2 * ind) ++ ("<Accordion title=\"" ++ title ++ "\">")], ind + 1, false⟩ : PState) from rfl]
      rw [preBlocksGo_indep rv H bs hbs 0
        (out ++ [spaces (2 * ind) ++ ("<Accordion title=\"" ++ title ++ "\">")]) (ind + 1) bb]
      cases hfb : preBlocksGo rv bs 0
          ⟨out ++ [spaces (2 * ind) ++ ("<Accordion title=\"" ++ title ++ "\">")], ind + 1, false⟩ with
      | err e => rfl
      | fuelOut => rfl
      | ok st2 =>
        obtain ⟨o2, i2, f2⟩ := st2
        simp only [reflagV]
        rfl
    · simp only [if_neg h2]
      rw [show bumpIndent (addLine ⟨out, ind, bb⟩ "<Accordion>") =
        (⟨out ++ [spaces (2 * ind) ++ "<Accordion>"], ind + 1, bb⟩ : PState) from rfl]
      rw [show bumpIndent (addLine ⟨out, ind, false⟩ "<Accordion>") =
        (⟨out ++ [spaces (2 * ind) ++ "<Accordion>"], ind + 1, false⟩ : PState) from rfl]
      rw [preBlocksGo_indep rv H bs hbs 0
        (out ++ [spaces (2 * ind) ++ "<Accordion>"]) (ind + 1) bb]
      cases hfb : preBlocksGo rv bs 0
          ⟨out ++ [spaces (2 * ind) ++ "<Accordion>"], ind + 1, false⟩ with
      | err e => rfl
      | fuelOut => rfl
      | ok st2 =>
        obtain ⟨o2, i2, f2⟩ := st2
        simp only [reflagV]
        rfl
  · simp only [if_neg h1]
    by_cases h2 : tag = "!!!"
    · simp only [if_pos h2]
      cases hk : kindToCallout (strLower kind) with
      | none => simp only []; rfl
      | some callout =>
        simp only []
        by_cases h3 : title ≠ ""
        · simp only [if_pos h3]
          rw [show addLine (bumpIndent (addLine ⟨out, ind, bb⟩ ("<" ++ callout ++ ">")))
              ("**" ++ title ++ "**") =
            (⟨(out ++ [spaces (2 * ind) ++ ("<" ++ callout ++ ">")]) ++
              [spaces (2 * (ind + 1)) ++ ("**" ++ title ++ "**")], ind + 1, bb⟩ : PState) from rfl]
          rw [show addLine (bumpIndent (addLine ⟨out, ind, false⟩ ("<" ++ callout ++ ">")))
              ("**" ++ title ++ "**") =
            (⟨(out ++ [spaces (2 * ind) ++ ("<" ++ callout ++ ">")]) ++
              [spaces (2 * (ind + 1)) ++ ("**" ++ title ++ "**")], ind + 1, false⟩ : PState) from rfl]
          rw [preBlocksGo_indep rv H bs hbs 0
            ((out ++ [spaces (2 * ind) ++ ("<" ++ callout ++ ">")]) ++
              [spaces (2 * (ind + 1)) ++ ("**" ++ title ++ "**")]) (ind + 1) bb]
          cases hfb : preBlocksGo rv bs 0
              ⟨(out ++ [spaces (2 * ind) ++ ("<" ++ callout ++ ">")]) ++
                [spaces (2 * (ind + 1)) ++ ("**" ++ title ++ "**")], ind + 1, false⟩ with
          | err e => rfl
          | fuelOut => rfl
          | ok st2 =>
            obtain ⟨o2, i2, f2⟩ := st2
            simp only [reflagV]
            rfl
        · simp only [if_neg h3]
          rw [show bumpIndent (addLine ⟨out, ind, bb⟩ ("<" ++ callout ++ ">")) =
            (⟨out ++ [spaces (2 * ind) ++ ("<" ++ callout ++ ">")], ind + 1, bb⟩ : PState) from rfl]
          rw [show bumpIndent (addLine ⟨out, ind, false⟩ ("<" ++ callout ++ ">")) =
            (⟨out ++ [spaces (2 * ind) ++ ("<" ++ callout ++ ">")], ind + 1, false⟩ : PState) from rfl]
          rw [preBlocksGo_indep rv H bs hbs 0
            (out ++ [spaces (2 * ind) ++ ("<" ++ callout ++ ">")]) (ind + 1) bb]
          cases hfb : preBlocksGo rv bs 0
              ⟨out ++ [spaces (2 * ind) ++ ("<" ++ callout ++ ">")], ind + 1, false⟩ with
          | err e => rfl
          | fuelOut => rfl
          | ok st2 =>
            obtain ⟨o2, i2, f2⟩ := st2
            simp only [reflagV]
            rfl
    · simp only [if_neg h2]
      rfl

theorem visitCodePure_flag (lang : Option String) (meta content : String)
    (out : List String) (ind : Nat) (bb : Bool) :
    visitCodePure lang meta content ⟨out, ind, bb⟩ =
      ⟨(visitCodePure lang meta content ⟨out, ind, false⟩).output,
        (visitCodePure lang meta content ⟨out, ind, false⟩).indentLevel, bb⟩ := by
  rw [visitCodePure, visitCodePure]
  by_cases hc : content ≠ ""
  · simp only [if_pos hc, addLine_eq, codeGo_spec]
  · simp only [if_neg hc, addLine_eq]

theorem htmlGo_flag (lines : List String) :
    ∀ (k : Nat) (out : List String) (ind : Nat) (bb : Bool),
      htmlGo lines k ⟨out, ind, bb⟩ =
        ⟨(htmlGo lines k ⟨out, ind, false⟩).output,
          (htmlGo lines k ⟨out, ind, false⟩).indentLevel, bb⟩ := by
  induction lines with
  | nil => intro k out ind bb; rfl
  | cons l rest ih =>
    intro k out ind bb
    rw [htmlGo, htmlGo]
    by_cases hl : pyStripWs l ≠ "" ∨ k = 0
    · simp only [if_pos hl, addLine_eq]
      exact ih (k + 1) _ ind bb
    · simp only [if_neg hl, addLine_eq]
      exact ih (k + 1) _ ind bb

theorem vrun_indep :
    ∀ (fuel : Nat) (x : Node), NoHeading x → ∀ (out : List String) (ind : Nat) (bb : Bool),
      vrun fuel x ⟨out, ind, bb⟩ = reflagV bb (vrun fuel x ⟨out, ind, false⟩) := by
  intro fuel
  induction fuel with
  | zero => intro x hx out ind bb; rfl
  | succ f ih =>
    have H : IndepAt (fun n st => vrun f n st) := fun x hx out ind bb => ih x hx out ind bb
    intro x hx out ind bb
    cases x with
    | document bs s l =>
      cases hx with
      | document hbs => exact docBlocksGo_indep _ H bs hbs 0 out ind bb
    | heading lvl v s l => cases hx
    | paragraph ls s l =>
      show VOut.ok (paraGo ls ⟨out, ind, bb⟩) = reflagV bb (.ok (paraGo ls ⟨out, ind, false⟩))
      rw [paraGo_spec, paraGo_spec]
      rfl
    | codeBlock lang meta c s l =>
      show VOut.ok (visitCodePure lang meta c ⟨out, ind, bb⟩) =
        reflagV bb (.ok (visitCodePure lang meta c ⟨out, ind, false⟩))
      rw [visitCodePure_flag]
      rfl
    | unorderedList its s l =>
      cases hx with
      | unorderedList hits => exact itemsUGo_indep _ H its hits out ind bb
    | orderedList its s l =>
      cases hx with
      | orderedList hits => exact itemsOGo_indep _ H its hits 1 out ind bb
    | quoteBlock ls s l =>
      show VOut.ok (quoteGo ls ⟨out, ind, bb⟩) = reflagV bb (.ok (quoteGo ls ⟨out, ind, false⟩))
      rw [quoteGo_spec, quoteGo_spec]
      rfl
    | tab ttl bs s l => rfl
    | tabBlock ts s l =>
      cases hx with
      | tabBlock hts =>
        show (match tabsGo (fun b s => vrun f b s) ts
            (bumpIndent (addLine ⟨out, ind, bb⟩ "<Tabs>")) with
          | VOut.ok st2 => VOut.ok (addLine (dropIndent st2) "</Tabs>")
          | o => o) = reflagV bb (match tabsGo (fun b s => vrun f b s) ts
            (bumpIndent (addLine ⟨out, ind, false⟩ "<Tabs>")) with
          | VOut.ok st2 => VOut.ok (addLine (dropIndent st2) "</Tabs>")
          | o => o)
        rw [show bumpIndent (addLine ⟨out, ind, bb⟩ "<Tabs>") =
          (⟨out ++ [spaces (2 * ind) ++ "<Tabs>"], ind + 1, bb⟩ : PState) from rfl]
        rw [show bumpIndent (addLine ⟨out, ind, false⟩ "<Tabs>") =
          (⟨out ++ [spaces (2 * ind) ++ "<Tabs>"], ind + 1, false⟩ : PState) from rfl]
        rw [tabsGo_indep _ H ts hts (out ++ [spaces (2 * ind) ++ "<Tabs>"]) (ind + 1) bb]
        cases hfb : tabsGo (fun b s => vrun f b s) ts
            ⟨out ++ [spaces (2 * ind) ++ "<Tabs>"], ind + 1, false⟩ with
        | err e => rfl
        | fuelOut => rfl
        | ok st2 =>
          obtain ⟨o2, i2, f2⟩ := st2
          simp only [reflagV]
          rfl
    | admonition tag kind title bs s l =>
      cases hx with
      | admonition hbs => exact admonGo_indep _ H tag kind title bs hbs out ind bb
    | listItem bs s l => rfl
    | frontMatter c s l => rfl
    | htmlBlock c s l =>
      show VOut.ok (htmlGo (pySplitChar '\n' c) 0 ⟨out, ind, bb⟩) =
        reflagV bb (.ok (htmlGo (pySplitChar '\n' c) 0 ⟨out, ind, false⟩))
      rw [htmlGo_flag]
      rfl
    | conditionalBlock lang bs ind2 s l =>
      cases hx with
      | conditionalBlock hbs =>
        show (match preBlocksGo (fun b s => vrun f b s) bs 0
            (addLine ⟨out, ind, bb⟩ (":::" ++ lang)) with
          | VOut.ok st2 => VOut.ok (addLine st2 ":::")
          | o => o) = reflagV bb (match preBlocksGo (fun b s => vrun f b s) bs 0
            (addLine ⟨out, ind, false⟩ (":::" ++ lang)) with
          | VOut.ok st2 => VOut.ok (addLine st2 ":::")
          | o => o)
        rw [addLine_eq, addLine_eq]
        rw [preBlocksGo_indep _ H bs hbs 0 (out ++ [spaces (2 * ind) ++ (":::" ++ lang)]) ind bb]
        cases hfb : preBlocksGo (fun b s => vrun f b s) bs 0
            ⟨out ++ [spaces (2 * ind) ++ (":::" ++ lang)], ind, false⟩ with
        | err e => rfl
        | fuelOut => rfl
        | ok st2 =>
          obtain ⟨o2, i2, f2⟩ := st2
          simp only [reflagV]
          rfl

end Mint

namespace Mint

/-- `rv` never resets a `true` flag. -/
def MonoAt (rv : Node → PState → VOut) : Prop :=
  ∀ x st st', rv x st = .ok st' →
    st.printedFirstHeading = true → st'.printedFirstHeading = true

theorem addLine_flag (st : PState) (s : String) :
    (addLine st s).printedFirstHeading = st.printedFirstHeading := rfl

theorem paraGo_samefl (ls : List String) (st : PState) :
    (paraGo ls st).printedFirstHeading = st.printedFirstHeading := by
  obtain ⟨o, i, b⟩ := st
  rw [paraGo_spec]

theorem codeGo_samefl (ls : List String) (st : PState) :
    (codeGo ls st).printedFirstHeading = st.printedFirstHeading := by
  obtain ⟨o, i, b⟩ := st
  rw [codeGo_spec]

theorem quoteGo_samefl (ls : List String) (st : PState) :
    (quoteGo ls st).printedFirstHeading = st.printedFirstHeading := by
  obtain ⟨o, i, b⟩ := st
  rw [quoteGo_spec]

theorem visitCodePure_samefl (lang : Option String) (meta c : String) (st : PState) :
    (visitCodePure lang meta c st).printedFirstHeading = st.printedFirstHeading := by
  rw [visitCodePure]
  by_cases hc : c ≠ ""
  · simp only [if_pos hc]
    rw [addLine_flag, codeGo_samefl, addLine_flag]
  · simp only [if_neg hc]
    rw [addLine_flag, addLine_flag]

theorem htmlGo_samefl (ls : List String) :
    ∀ (k : Nat) (st : PState),
      (htmlGo ls k st).printedFirstHeading = st.printedFirstHeading := by
  induction ls with
  | nil => intro k st; rfl
  | cons l rest ih =>
    intro k st
    rw [htmlGo]
    by_cases hl : pyStripWs l ≠ "" ∨ k = 0
    · simp only [if_pos hl]
      rw [ih, addLine_flag]
    · simp only [if_neg hl]
      rw [ih, addLine_flag]

/-- `_visit_heading` always leaves the flag `true`: either it was already
printed-first, or the front-matter branch sets it. -/
theorem visitHeadingPure_sets (lvl : Nat) (v : String) (st : PState) :
    (visitHeadingPure lvl v st).printedFirstHeading = true := by
  rw [visitHeadingPure]
  rcases hEA : extractAnchor v with ⟨araw, clean⟩
  by_cases hf : st.printedFirstHeading = true
  · simp only [hf, if_true, if_pos]
    cases (araw.map slugify) with
    | none => rw [addLine_flag]; exact hf
    | some a =>
      by_cases ha : a ≠ ""
      · simp only [if_pos ha, addLine_flag, addLine_flag]; exact hf
      · simp only [if_neg ha, addLine_flag]; exact hf
  · simp only [Bool.not_eq_true] at hf
    simp only [hf, Bool.false_eq_true, if_false]

theorem docBlocksGo_mono (rv : Node → PState → VOut) (H : MonoAt rv) :
    ∀ (bs : List Node) (i : Nat) (st st' : PState),
      docBlocksGo rv bs i st = .ok st' →
      st.printedFirstHeading = true → st'.printedFirstHeading = true := by
  intro bs
  induction bs with
  | nil =>
    intro i st st' h hf
    rw [docBlocksGo] at h
    cases h
    exact hf
  | cons b rest ih =>
    intro i st st' h hf
    rw [docBlocksGo] at h
    cases hfb : rv b st with
    | err e => rw [hfb] at h; cases h
    | fuelOut => rw [hfb] at h; cases h
    | ok st1 =>
      rw [hfb] at h
      simp only [] at h
      have hst1 : st1.printedFirstHeading = true := H b st st1 hfb hf
      refine ih (i + 1) _ st' h ?_
      by_cases hi : 0 < i
      · simp only [if_pos hi, addLine_flag]; exact hst1
      · simp only [if_neg hi]; exact hst1

theorem preBlocksGo_mono (rv : Node → PState → VOut) (H : MonoAt rv) :
    ∀ (bs : List Node) (i : Nat) (st st' : PState),
      preBlocksGo rv bs i st = .ok st' →
      st.printedFirstHeading = true → st'.printedFirstHeading = true := by
  intro bs
  induction bs with
  | nil =>
    intro i st st' h hf
    rw [preBlocksGo] at h
    cases h
    exact hf
  | cons b rest ih =>
    intro i st st' h hf
    rw [preBlocksGo] at h
    have hf2 : (if 0 < i then addLine st "" else st).printedFirstHeading = true := by
      by_cases hi : 0 < i
      · simp only [if_pos hi, addLine_flag]; exact hf
      · simp only [if_neg hi]; exact hf
    cases hfb : rv b (if 0 < i then addLine st "" else st) with
    | err e => rw [hfb] at h; cases h
    | fuelOut => rw [hfb] at h; cases h
    | ok st1 =>
      rw [hfb] at h
      simp only [] at h
      exact ih (i + 1) st1 st' h (H b _ st1 hfb hf2)

theorem itemBlocksGo_mono (rv : Node → PState → VOut) (H : MonoAt rv)
    (marker : String) :
    ∀ (bs : List Node) (i : Nat) (st st' : PState),
      itemBlocksGo rv marker bs i st = .ok st' →
      st.printedFirstHeading = true → st'.printedFirstHeading = true := by
  intro bs
  induction bs with
  | nil =>
    intro i st st' h hf
    rw [itemBlocksGo] at h
    cases h
    exact hf
  | cons b rest ih =>
    intro i st st' h hf
    rw [itemBlocksGo.eq_def] at h
    simp only [] at h
    by_cases hi : i = 0
    · rw [if_pos hi] at h
      cases hpl : paragraphLines b with
      | some ls =>
        rw [hpl] at h
        simp only [] at h
        refine ih 1 _ st' h ?_
        rw [addLine_flag]
        exact hf
      | none =>
        rw [hpl] at h
        simp only [] at h
        cases hfb : rv b (addLine st marker) with
        | err e => rw [hfb] at h; cases h
        | fuelOut => rw [hfb] at h; cases h
        | ok st1 =>
          rw [hfb] at h
          simp only [] at h
          refine ih 1 st1 st' h (H b _ st1 hfb ?_)
          rw [addLine_flag]
          exact hf
    · rw [if_neg hi] at h
      cases hfb : rv b (bumpIndent st) with
      | err e => rw [hfb] at h; cases h
      | fuelOut => rw [hfb] at h; cases h
      | ok st1 =>
        rw [hfb] at h
        simp only [] at h
        have hst1 : st1.printedFirstHeading = true := H b _ st1 hfb hf
        exact ih (i + 1) _ st' h hst1

theorem itemsUGo_mono (rv : Node → PState → VOut) (H : MonoAt rv) :
    ∀ (its : List Node) (st st' : PState),
      itemsUGo rv its st = .ok st' →
      st.printedFirstHeading = true → st'.printedFirstHeading = true := by
  intro its
  induction its with
  | nil =>
    intro st st' h hf
    rw [itemsUGo] at h
    cases h
    exact hf
  | cons it rest ih =>
    intro st st' h hf
    rw [itemsUGo] at h
    cases hattr : it.blocksAttr with
    | none => rw [hattr] at h; cases h
    | some bs2 =>
      rw [hattr] at h
      simp only [] at h
      cases hfb : itemBlocksGo rv "* " bs2 0 st with
      | err e => rw [hfb] at h; cases h
      | fuelOut => rw [hfb] at h; cases h
      | ok st1 =>
        rw [hfb] at h
        simp only [] at h
        exact ih st1 st' h (itemBlocksGo_mono rv H "* " bs2 0 st st1 hfb hf)

theorem itemsOGo_mono (rv : Node → PState → VOut) (H : MonoAt rv) :
    ∀ (its : List Node) (k : Nat) (st st' : PState),
      itemsOGo rv its k st = .ok st' →
      st.printedFirstHeading = true → st'.printedFirstHeading = true := by
  intro its
  induction its with
  | nil =>
    intro k st st' h hf
    rw [itemsOGo] at h
    cases h
    exact hf
  | cons it rest ih =>
    intro k st st' h hf
    rw [itemsOGo] at h
    cases hattr : it.blocksAttr with
    | none => rw [hattr] at h; cases h
    | some bs2 =>
      rw [hattr] at h
      simp only [] at h
      cases hfb : itemBlocksGo rv (toString k ++ ". ") bs2 0 st with
      | err e => rw [hfb] at h; cases h
      | fuelOut => rw [hfb] at h; cases h
      | ok st1 =>
        rw [hfb] at h
        simp only [] at h
        exact ih (k + 1) st1 st' h
          (itemBlocksGo_mono rv H (toString k ++ ". ") bs2 0 st st1 hfb hf)

theorem tabsGo_mono (rv : Node → PState → VOut) (H : MonoAt rv) :
    ∀ (ts : List Node) (st st' : PState),
      tabsGo rv ts st = .ok st' →
      st.printedFirstHeading = true → st'.printedFirstHeading = true := by
  intro ts
  induction ts with
  | nil =>
    intro st st' h hf
    rw [tabsGo] at h
    cases h
    exact hf
  | cons t rest ih =>
    intro st st' h hf
    rw [tabsGo] at h
    cases httl : t.titleAttr with
    | none => rw [httl] at h; simp only [] at h; cases h
    | some ttl =>
      rw [httl] at h
      cases hattr : t.blocksAttr with
      | none => rw [hattr] at h; simp only [] at h; cases h
      | some bs2 =>
        rw [hattr] at h
        simp only [] at h
        cases hfb : preBlocksGo rv bs2 0
            (bumpIndent (addLine st ("<Tab title=\"" ++ pyStrip ttl [backtick] ++ "\">"))) with
        | err e => rw [hfb] at h; cases h
        | fuelOut => rw [hfb] at h; cases h
        | ok st2 =>
          rw [hfb] at h
          simp only [] at h
          have hst2 : st2.printedFirstHeading = true := by
            refine preBlocksGo_mono rv H bs2 0 _ st2 hfb ?_
            rw [show (bumpIndent (addLine st ("<Tab title=\"" ++ pyStrip ttl [backtick] ++ "\">"))).printedFirstHeading = st.printedFirstHeading from rfl]
            exact hf
          refine ih _ st' h ?_
          rw [show (addLine (dropIndent st2) "</Tab>").printedFirstHeading = st2.printedFirstHeading from rfl]
          exact hst2

theorem admonGo_mono (rv : Node → PState → VOut) (H : MonoAt rv)
    (tag kind title : String) (bs : List Node) (st st' : PState)
    (h : admonGo rv tag kind title bs st = .ok st')
    (hf : st.printedFirstHeading = true) : st'.printedFirstHeading = true := by
  rw [admonGo] at h
  by_cases h1 : tag = "???"
  · rw [if_pos h1] at h
    simp only [] at h
    cases hfb : preBlocksGo rv bs 0 (bumpIndent
        (if title ≠ "" then addLine st ("<Accordion title=\"" ++ title ++ "\">")
         else addLine st "<Accordion>")) with
    | err e => rw [hfb] at h; cases h
    | fuelOut => rw [hfb] at h; cases h
    | ok st2 =>
      rw [hfb] at h
      simp only [] at h
      cases h
      rw [show (addLine (dropIndent st2) "</Accordion>").printedFirstHeading = st2.printedFirstHeading from rfl]
      refine preBlocksGo_mono rv H bs 0 _ st2 hfb ?_
      by_cases h2 : title ≠ ""
      · rw [if_pos h2]; exact hf
      · rw [if_neg h2]; exact hf
  · rw [if_neg h1] at h
    by_cases h2 : tag = "!!!"
    · rw [if_pos h2] at h
      cases hk : kindToCallout (strLower kind) with
      | none => rw [hk] at h; simp only [] at h; cases h
      | some callout =>
        rw [hk] at h
        simp only [] at h
        cases hfb : preBlocksGo rv bs 0
            (if title ≠ "" then
              addLine (bumpIndent (addLine st ("<" ++ callout ++ ">"))) ("**" ++ title ++ "**")
             else bumpIndent (addLine st ("<" ++ callout ++ ">"))) with
        | err e => rw [hfb] at h; cases h
        | fuelOut => rw [hfb] at h; cases h
        | ok st3 =>
          rw [hfb] at h
          simp only [] at h
          cases h
          rw [show (addLine (dropIndent st3) ("</" ++ callout ++ ">")).printedFirstHeading = st3.printedFirstHeading from rfl]
          refine preBlocksGo_mono rv H bs 0 _ st3 hfb ?_
          by_cases h3 : title ≠ ""
          · rw [if_pos h3]; exact hf
          · rw [if_neg h3]; exact hf
    · rw [if_neg h2] at h
      cases h

theorem vrun_flag_mono :
    ∀ (fuel : Nat) (x : Node) (st st' : PState),
      vrun fuel x st = .ok st' →
      st.printedFirstHeading = true → st'.printedFirstHeading = true := by
  intro fuel
  induction fuel with
  | zero => intro x st st' h hf; cases h
  | succ f ih =>
    have H : MonoAt (fun n s => vrun f n s) := fun x st st' h hf => ih x st st' h hf
    intro x st st' h hf
    cases x with
    | document bs s l => exact docBlocksGo_mono _ H bs 0 st st' h hf
    | heading lvl v s l =>
      cases h
      rw [visitHeadingPure_sets]
    | paragraph ls s l =>
      cases h
      rw [paraGo_samefl]
      exact hf
    | codeBlock lang meta c s l =>
      cases h
      rw [visitCodePure_samefl]
      exact hf
    | unorderedList its s l => exact itemsUGo_mono _ H its st st' h hf
    | orderedList its s l => exact itemsOGo_mono _ H its 1 st st' h hf
    | quoteBlock ls s l =>
      cases h
      rw [quoteGo_samefl]
      exact hf
    | tab ttl bs s l => cases h
    | tabBlock ts s l =>
      have h2 : (match tabsGo (fun b s => vrun f b s) ts
          (bumpIndent (addLine st "<Tabs>")) with
        | VOut.ok st2 => VOut.ok (addLine (dropIndent st2) "</Tabs>")
        | o => o) = .ok st' := h
      cases hfb : tabsGo (fun b s => vrun f b s) ts (bumpIndent (addLine st "<Tabs>")) with
      | err e => rw [hfb] at h2; cases h2
      | fuelOut => rw [hfb] at h2; cases h2
      | ok st2 =>
        rw [hfb] at h2
        simp only [] at h2
        cases h2
        rw [show (addLine (dropIndent st2) "</Tabs>").printedFirstHeading = st2.printedFirstHeading from rfl]
        refine tabsGo_mono _ H ts _ st2 hfb ?_
        rw [show (bumpIndent (addLine st "<Tabs>")).printedFirstHeading = st.printedFirstHeading from rfl]
        exact hf
    | admonition tag kind title bs s l =>
      exact admonGo_mono _ H tag kind title bs st st' h hf
    | listItem bs s l => cases h
    | frontMatter c s l =>
      cases h
      exact hf
    | htmlBlock c s l =>
      cases h
      rw [htmlGo_samefl]
      exact hf
    | conditionalBlock lang bs ind2 s l =>
      have h2 : (match preBlocksGo (fun b s => vrun f b s) bs 0
          (addLine st (":::" ++ lang)) with
        | VOut.ok st2 => VOut.ok (addLine st2 ":::")
        | o => o) = .ok st' := h
      cases hfb : preBlocksGo (fun b s => vrun f b s) bs 0 (addLine st (":::" ++ lang)) with
      | err e => rw [hfb] at h2; cases h2
      | fuelOut => rw [hfb] at h2; cases h2
      | ok st2 =>
        rw [hfb] at h2
        simp only [] at h2
        cases h2
        rw [show (addLine st2 ":::").printedFirstHeading = st2.printedFirstHeading from rfl]
        refine preBlocksGo_mono _ H bs 0 _ st2 hfb ?_
        rw [addLine_flag]
        exact hf

theorem paragraphLines_shape (b : Node) (ls : List String)
    (h : paragraphLines b = some ls) :
    ∃ s l, b = .paragraph ls s l := by
  cases b with
  | paragraph ls2 s l =>
    simp only [paragraphLines, Option.some.injEq] at h
    exact ⟨s, l, by rw [h]⟩
  | document bs s l => cases h
  | heading lvl v s l => cases h
  | codeBlock lang meta body s l => cases h
  | quoteBlock v s l => cases h
  | htmlBlock v s l => cases h
  | frontMatter v s l => cases h
  | listItem bs s l => cases h
  | unorderedList its s l => cases h
  | orderedList its s l => cases h
  | tabBlock ts s l => cases h
  | tab t bs s l => cases h
  | admonition tg k t bs s l => cases h
  | conditionalBlock lang bs ind s l => cases h

/-- `HasHeading` through the `blocks` attribute: a node with a heading in
its subtree either has no `blocks` attribute at all (so the list-item and
tab visitors fail on it), is itself a heading, or owns a block list one
of whose members has a heading. -/
theorem HasHeading.attr_cases {it : Node} (h : HasHeading it) :
    it.blocksAttr = none ∨
    (∃ bs2, it.blocksAttr = some bs2 ∧ ∃ b ∈ bs2, HasHeading b) := by
  cases h with
  | heading => exact Or.inl rfl
  | document hm hh => exact Or.inr ⟨_, rfl, _, hm, hh⟩
  | listItem hm hh => exact Or.inr ⟨_, rfl, _, hm, hh⟩
  | unorderedList hm hh => exact Or.inl rfl
  | orderedList hm hh => exact Or.inl rfl
  | tab hm hh => exact Or.inr ⟨_, rfl, _, hm, hh⟩
  | tabBlock hm hh => exact Or.inl rfl
  | admonition hm hh => exact Or.inr ⟨_, rfl, _, hm, hh⟩
  | conditionalBlock hm hh => exact Or.inr ⟨_, rfl, _, hm, hh⟩

theorem docBlocksGo_sets (rv : Node → PState → VOut) (H : MonoAt rv)
    (b : Node) (Hb : ∀ st st', rv b st = .ok st' → st'.printedFirstHeading = true) :
    ∀ (bs : List Node), b ∈ bs → ∀ (i : Nat) (st st' : PState),
      docBlocksGo rv bs i st = .ok st' → st'.printedFirstHeading = true := by
  intro bs
  induction bs with
  | nil => intro hm; cases hm
  | cons c rest ih =>
    intro hm i st st' h
    rw [docBlocksGo] at h
    cases hfb : rv c st with
    | err e => rw [hfb] at h; cases h
    | fuelOut => rw [hfb] at h; cases h
    | ok st1 =>
      rw [hfb] at h
      simp only [] at h
      rcases List.mem_cons.mp hm with rfl | hm2
      · have hst1 : st1.printedFirstHeading = true := Hb st st1 hfb
        refine docBlocksGo_mono rv H rest (i + 1) _ st' h ?_
        by_cases hi : 0 < i
        · rw [if_pos hi, addLine_flag]; exact hst1
        · rw [if_neg hi]; exact hst1
      · exact ih hm2 (i + 1) _ st' h

theorem preBlocksGo_sets (rv : Node → PState → VOut) (H : MonoAt rv)
    (b : Node) (Hb : ∀ st st', rv b st = .ok st' → st'.printedFirstHeading = true) :
    ∀ (bs : List Node), b ∈ bs → ∀ (i : Nat) (st st' : PState),
      preBlocksGo rv bs i st = .ok st' → st'.printedFirstHeading = true := by
  intro bs
  induction bs with
  | nil => intro hm; cases hm
  | cons c rest ih =>
    intro hm i st st' h
    rw [preBlocksGo] at h
    cases hfb : rv c (if 0 < i then addLine st "" else st) with
    | err e => rw [hfb] at h; cases h
    | fuelOut => rw [hfb] at h; cases h
    | ok st1 =>
      rw [hfb] at h
      simp only [] at h
      rcases List.mem_cons.mp hm with rfl | hm2
      · exact preBlocksGo_mono rv H rest (i + 1) st1 st' h (Hb _ st1 hfb)
      · exact ih hm2 (i + 1) st1 st' h

theorem itemBlocksGo_sets (rv : Node → PState → VOut) (H : MonoAt rv)
    (marker : String) (b : Node) (hhb : HasHeading b)
    (Hb : ∀ st st', rv b st = .ok st' → st'.printedFirstHeading = true) :
    ∀ (bs : List Node), b ∈ bs → ∀ (i : Nat) (st st' : PState),
      itemBlocksGo rv marker bs i st = .ok st' → st'.printedFirstHeading = true := by
  intro bs
  induction bs with
  | nil => intro hm; cases hm
  | cons c rest ih =>
    intro hm i st st' h
    rw [itemBlocksGo.eq_def] at h
    simp only [] at h
    by_cases hi : i = 0
    · rw [if_pos hi] at h
      cases hpl : paragraphLines c with
      | some ls =>
        rw [hpl] at h
        simp only [] at h
        rcases List.mem_cons.mp hm with rfl | hm2
        · obtain ⟨s2, l2, rfl⟩ := paragraphLines_shape _ _ hpl
          cases hhb
        · exact ih hm2 1 _ st' h
      | none =>
        rw [hpl] at h
        simp only [] at h
        cases hfb : rv c (addLine st marker) with
        | err e => rw [hfb] at h; cases h
        | fuelOut => rw [hfb] at h; cases h
        | ok st1 =>
          rw [hfb] at h
          simp only [] at h
          rcases List.mem_cons.mp hm with rfl | hm2
          · exact itemBlocksGo_mono rv H marker rest 1 st1 st' h (Hb _ st1 hfb)
          · exact ih hm2 1 st1 st' h
    · rw [if_neg hi] at h
      cases hfb : rv c (bumpIndent st) with
      | err e => rw [hfb] at h; cases h
      | fuelOut => rw [hfb] at h; cases h
      | ok st1 =>
        rw [hfb] at h
        simp only [] at h
        rcases List.mem_cons.mp hm with rfl | hm2
        · refine itemBlocksGo_mono rv H marker rest (i + 1) _ st' h ?_
          rw [show (dropIndent st1).printedFirstHeading = st1.printedFirstHeading from rfl]
          exact Hb _ st1 hfb
        · exact ih hm2 (i + 1) _ st' h

theorem itemsUGo_sets (rv : Node → PState → VOut) (H : MonoAt rv)
    (it : Node) (hhit : HasHeading it)
    (Hrec : ∀ x, HasHeading x → ∀ st st', rv x st = .ok st' → st'.printedFirstHeading = true) :
    ∀ (its : List Node), it ∈ its → ∀ (st st' : PState),
      itemsUGo rv its st = .ok st' → st'.printedFirstHeading = true := by
  intro its
  induction its with
  | nil => intro hm; cases hm
  | cons c rest ih =>
    intro hm st st' h
    rw [itemsUGo] at h
    cases hattr : c.blocksAttr with
    | none => rw [hattr] at h; cases h
    | some bs =>
      rw [hattr] at h
      simp only [] at h
      cases hfb : itemBlocksGo rv "* " bs 0 st with
      | err e => rw [hfb] at h; cases h
      | fuelOut => rw [hfb] at h; cases h
      | ok st1 =>
        rw [hfb] at h
        simp only [] at h
        rcases List.mem_cons.mp hm with rfl | hm2
        · rcases HasHeading.attr_cases hhit with hnone | ⟨bs3, hb3, b, hbm, hbh⟩
          · rw [hnone] at hattr; cases hattr
          · rw [hb3, Option.some.injEq] at hattr
            rw [hattr] at hbm
            exact itemsUGo_mono rv H rest st1 st' h
              (itemBlocksGo_sets rv H "* " b hbh (Hrec b hbh) bs hbm 0 st st1 hfb)
        · exact ih hm2 st1 st' h

theorem itemsOGo_sets (rv : Node → PState → VOut) (H : MonoAt rv)
    (it : Node) (hhit : HasHeading it)
    (Hrec : ∀ x, HasHeading x → ∀ st st', rv x st = .ok st' → st'.printedFirstHeading = true) :
    ∀ (its : List Node), it ∈ its → ∀ (k : Nat) (st st' : PState),
      itemsOGo rv its k st = .ok st' → st'.printedFirstHeading = true := by
  intro its
  induction its with
  | nil => intro hm; cases hm
  | cons c rest ih =>
    intro hm k st st' h
    rw [itemsOGo] at h
    cases hattr : c.blocksAttr with
    | none => rw [hattr] at h; cases h
    | some bs =>
      rw [hattr] at h
      simp only [] at h
      cases hfb : itemBlocksGo rv (toString k ++ ". ") bs 0 st with
      | err e => rw [hfb] at h; cases h
      | fuelOut => rw [hfb] at h; cases h
      | ok st1 =>
        rw [hfb] at h
        simp only [] at h
        rcases List.mem_cons.mp hm with rfl | hm2
        · rcases HasHeading.attr_cases hhit with hnone | ⟨bs3, hb3, b, hbm, hbh⟩
          · rw [hnone] at hattr; cases hattr
          · rw [hb3, Option.some.injEq] at hattr
            rw [hattr] at hbm
            exact itemsOGo_mono rv H rest (k + 1) st1 st' h
              (itemBlocksGo_sets rv H (toString k ++ ". ") b hbh (Hrec b hbh) bs hbm 0 st st1 hfb)
        · exact ih hm2 (k + 1) st1 st' h

theorem tabsGo_sets (rv : Node → PState → VOut) (H : MonoAt rv)
    (t : Node) (hht : HasHeading t)
    (Hrec : ∀ x, HasHeading x → ∀ st st', rv x st = .ok st' → st'.printedFirstHeading = true) :
    ∀ (ts : List Node), t ∈ ts → ∀ (st st' : PState),
      tabsGo rv ts st = .ok st' → st'.printedFirstHeading = true := by
  intro ts
  induction ts with
  | nil => intro hm; cases hm
  | cons c rest ih =>
    intro hm st st' h
    rw [tabsGo] at h
    cases httl : c.titleAttr with
    | none => rw [httl] at h; simp only [] at h; cases h
    | some ttl =>
      rw [httl] at h
      cases hattr : c.blocksAttr with
      | none => rw [hattr] at h; simp only [] at h; cases h
      | some bs2 =>
        rw [hattr] at h
        simp only [] at h
        cases hfb : preBlocksGo rv bs2 0
            (bumpIndent (addLine st ("<Tab title=\"" ++ pyStrip ttl [backtick] ++ "\">"))) with
        | err e => rw [hfb] at h; cases h
        | fuelOut => rw [hfb] at h; cases h
        | ok st2 =>
          rw [hfb] at h
          simp only [] at h
          rcases List.mem_cons.mp hm with rfl | hm2
          · rcases HasHeading.attr_cases hht with hnone | ⟨bs3, hb3, b, hbm, hbh⟩
            · rw [hnone] at hattr; cases hattr
            · rw [hb3, Option.some.injEq] at hattr
              rw [hattr] at hbm
              refine tabsGo_mono rv H rest _ st' h ?_
              rw [show (addLine (dropIndent st2) "</Tab>").printedFirstHeading = st2.printedFirstHeading from rfl]
              exact preBlocksGo_sets rv H b (Hrec b hbh) bs2 hbm 0 _ st2 hfb
          · exact ih hm2 _ st' h

theorem admonGo_sets (rv : Node → PState → VOut) (H : MonoAt rv)
    (b : Node) (Hb : ∀ st st', rv b st = .ok st' → st'.printedFirstHeading = true)
    (tag kind title : String) (bs : List Node) (hm : b ∈ bs) (st st' : PState)
    (h : admonGo rv tag kind title bs st = .ok st') :
    st'.printedFirstHeading = true := by
  rw [admonGo] at h
  by_cases h1 : tag = "???"
  · rw [if_pos h1] at h
    simp only [] at h
    cases hfb : preBlocksGo rv bs 0 (bumpIndent
        (if title ≠ "" then addLine st ("<Accordion title=\"" ++ title ++ "\">")
         else addLine st "<Accordion>")) with
    | err e => rw [hfb] at h; cases h
    | fuelOut => rw [hfb] at h; cases h
    | ok st2 =>
      rw [hfb] at h
      simp only [] at h
      cases h
      rw [show (addLine (dropIndent st2) "</Accordion>").printedFirstHeading = st2.printedFirstHeading from rfl]
      exact preBlocksGo_sets rv H b Hb bs hm 0 _ st2 hfb
  · rw [if_neg h1] at h
    by_cases h2 : tag = "!!!"
    · rw [if_pos h2] at h
      cases hk : kindToCallout (strLower kind) with
      | none => rw [hk] at h; simp only [] at h; cases h
      | some callout =>
        rw [hk] at h
        simp only [] at h
        cases hfb : preBlocksGo rv bs 0
            (if title ≠ "" then
              addLine (bumpIndent (addLine st ("<" ++ callout ++ ">"))) ("**" ++ title ++ "**")
             else bumpIndent (addLine st ("<" ++ callout ++ ">"))) with
        | err e => rw [hfb] at h; cases h
        | fuelOut => rw [hfb] at h; cases h
        | ok st3 =>
          rw [hfb] at h
          simp only [] at h
          cases h
          rw [show (addLine (dropIndent st3) ("</" ++ callout ++ ">")).printedFirstHeading = st3.printedFirstHeading from rfl]
          exact preBlocksGo_sets rv H b Hb bs hm 0 _ st3 hfb
    · rw [if_neg h2] at h
      cases h

/-- Once a heading anywhere in the subtree has been visited successfully,
the printer leaves `printed_first_heading` set to `True`. -/
theorem vrun_sets_flag :
    ∀ (fuel : Nat) (x : Node) (st st' : PState), HasHeading x →
      vrun fuel x st = .ok st' → st'.printedFirstHeading = true := by
  intro fuel
  induction fuel with
  | zero => intro x st st' hx h; cases h
  | succ f ih =>
    have H : MonoAt (fun n s => vrun f n s) :=
      fun x st st' h hf => vrun_flag_mono f x st st' h hf
    intro x st st' hx h
    cases x with
    | document bs s l =>
      cases hx with
      | document hm hh =>
        exact docBlocksGo_sets _ H _ (fun s1 s2 hr => ih _ s1 s2 hh hr) bs hm 0 st st' h
    | heading lvl v s l =>
      cases h
      exact visitHeadingPure_sets lvl v st
    | paragraph ls s l => cases hx
    | codeBlock lang meta c s l => cases hx
    | unorderedList its s l =>
      cases hx with
      | unorderedList hm hh =>
        exact itemsUGo_sets _ H _ hh (fun x hx2 s1 s2 hr => ih x s1 s2 hx2 hr) its hm st st' h
    | orderedList its s l =>
      cases hx with
      | orderedList hm hh =>
        exact itemsOGo_sets _ H _ hh (fun x hx2 s1 s2 hr => ih x s1 s2 hx2 hr) its hm 1 st st' h
    | quoteBlock ls s l => cases hx
    | tab ttl bs s l => cases h
    | tabBlock ts s l =>
      cases hx with
      | tabBlock hm hh =>
        have h2 : (match tabsGo (fun b s => vrun f b s) ts
            (bumpIndent (addLine st "<Tabs>")) with
          | VOut.ok st2 => VOut.ok (addLine (dropIndent st2) "</Tabs>")
          | o => o) = .ok st' := h
        cases hfb : tabsGo (fun b s => vrun f b s) ts (bumpIndent (addLine st "<Tabs>")) with
        | err e => rw [hfb] at h2; cases h2
        | fuelOut => rw [hfb] at h2; cases h2
        | ok st2 =>
          rw [hfb] at h2
          simp only [] at h2
          cases h2
          rw [show (addLine (dropIndent st2) "</Tabs>").printedFirstHeading = st2.printedFirstHeading from rfl]
          exact tabsGo_sets _ H _ hh (fun x hx2 s1 s2 hr => ih x s1 s2 hx2 hr) ts hm _ st2 hfb
    | admonition tag kind title bs s l =>
      cases hx with
      | admonition hm hh =>
        exact admonGo_sets _ H _ (fun s1 s2 hr => ih _ s1 s2 hh hr)
          tag kind title bs hm st st' h
    | listItem bs s l => cases h
    | frontMatter c s l => cases hx
    | htmlBlock c s l => cases hx
    | conditionalBlock lang bs ind2 s l =>
      cases hx with
      | conditionalBlock hm hh =>
        have h2 : (match preBlocksGo (fun b s => vrun f b s) bs 0
            (addLine st (":::" ++ lang)) with
          | VOut.ok st2 => VOut.ok (addLine st2 ":::")
          | o => o) = .ok st' := h
        cases hfb : preBlocksGo (fun b s => vrun f b s) bs 0 (addLine st (":::" ++ lang)) with
        | err e => rw [hfb] at h2; cases h2
        | fuelOut => rw [hfb] at h2; cases h2
        | ok st2 =>
          rw [hfb] at h2
          simp only [] at h2
          cases h2
          rw [show (addLine st2 ":::").printedFirstHeading = st2.printedFirstHeading from rfl]
          exact preBlocksGo_sets _ H _ (fun s1 s2 hr => ih _ s1 s2 hh hr) bs hm 0 _ st2 hfb

theorem visitHeadingPure_first (lvl : Nat) (v : String) (out : List String) (ind : Nat) :
    visitHeadingPure lvl v ⟨out, ind, false⟩ =
      ⟨out ++ [spaces (2 * ind) ++ "---",
               spaces (2 * ind) ++ ("title: " ++ (extractAnchor v).2),
               spaces (2 * ind) ++ "---"], ind, true⟩ := by
  rw [visitHeadingPure]
  rcases hEA : extractAnchor v with ⟨araw, clean⟩
  simp [addLine_eq, List.append_assoc]

theorem visitHeadingPure_anchor (lvl : Nat) (v : String) (out : List String) (ind : Nat)
    (a : String) (ha : (extractAnchor v).1.map slugify = some a) (hne : a ≠ "") :
    visitHeadingPure lvl v ⟨out, ind, true⟩ =
      ⟨out ++ [spaces (2 * ind) ++ ("<a id=\"" ++ a ++ "\"></a>"),
               spaces (2 * ind) ++
                 (String.mk (List.replicate lvl '#') ++ " " ++ (extractAnchor v).2)],
       ind, true⟩ := by
  rw [visitHeadingPure]
  rcases hEA : extractAnchor v with ⟨araw, clean⟩
  rw [hEA] at ha
  have ha2 : araw.map slugify = some a := ha
  simp [ha2, hne, addLine_eq, List.append_assoc]

theorem visitHeadingPure_noanchor (lvl : Nat) (v : String) (out : List String) (ind : Nat)
    (ha : (extractAnchor v).1.map slugify = none ∨ (extractAnchor v).1.map slugify = some "") :
    visitHeadingPure lvl v ⟨out, ind, true⟩ =
      ⟨out ++ [spaces (2 * ind) ++
                 (String.mk (List.replicate lvl '#') ++ " " ++ (extractAnchor v).2)],
       ind, true⟩ := by
  rw [visitHeadingPure]
  rcases hEA : extractAnchor v with ⟨araw, clean⟩
  rw [hEA] at ha
  rcases ha with ha | ha
  · have ha2 : araw.map slugify = none := ha
    simp [ha2, addLine_eq]
  · have ha2 : araw.map slugify = some "" := ha
    simp [ha2, addLine_eq]

/-- C4 counterexample: the heading text "A (!!!)" carries a trailing
parenthesized suffix (the parenthesis regex matches), yet the printer
emits no anchor tag for it even as a non-first heading, because the
captured text slugifies to the empty string and `if anchor_id:` is
falsy on it. -/
theorem c4_paren_suffix_no_anchor :
    (parenSearchSub "A (!!!)".toList).isSome = true ∧
    visitHeadingPure 1 "A (!!!)" ⟨[], 0, true⟩ = ⟨["# A"], 0, true⟩ := by
  exact ⟨rfl, rfl⟩

/-- C4 (amended): the first heading visited (printed-first-heading flag
still `False`) becomes a front-matter block whose `title` is the heading
text with anchor syntax stripped, with no anchor tag, and the flag is set;
a subsequent heading (flag `True`) prints `#` times its level, a space and
the cleaned text, preceded by an anchor tag exactly when the anchor
source (explicit `{#...}` syntax or a trailing parenthesized suffix)
slugifies to a NON-EMPTY id — not merely when such syntax is present;
and a successful visit of any subtree containing a heading leaves the
flag `True`, so the front-matter branch runs for at most one heading per
document. -/
theorem c4_heading_promotion_amended :
    (∀ (lvl : Nat) (v : String) (out : List String) (ind : Nat),
      visitHeadingPure lvl v ⟨out, ind, false⟩ =
        ⟨out ++ [spaces (2 * ind) ++ "---",
                 spaces (2 * ind) ++ ("title: " ++ (extractAnchor v).2),
                 spaces (2 * ind) ++ "---"], ind, true⟩) ∧
    (∀ (lvl : Nat) (v : String) (out : List String) (ind : Nat) (a : String),
      (extractAnchor v).1.map slugify = some a → a ≠ "" →
      visitHeadingPure lvl v ⟨out, ind, true⟩ =
        ⟨out ++ [spaces (2 * ind) ++ ("<a id=\"" ++ a ++ "\"></a>"),
                 spaces (2 * ind) ++
                   (String.mk (List.replicate lvl '#') ++ " " ++ (extractAnchor v).2)],
         ind, true⟩) ∧
    (∀ (lvl : Nat) (v : String) (out : List String) (ind : Nat),
      ((extractAnchor v).1.map slugify = none ∨ (extractAnchor v).1.map slugify = some "") →
      visitHeadingPure lvl v ⟨out, ind, true⟩ =
        ⟨out ++ [spaces (2 * ind) ++
                   (String.mk (List.replicate lvl '#') ++ " " ++ (extractAnchor v).2)],
         ind, true⟩) ∧
    (∀ (fuel : Nat) (x : Node) (st st2 : PState), HasHeading x →
      vrun fuel x st = VOut.ok st2 → st2.printedFirstHeading = true) :=
  ⟨visitHeadingPure_first, visitHeadingPure_anchor, visitHeadingPure_noanchor,
   fun fuel x st st2 hx h => vrun_sets_flag fuel x st st2 hx h⟩

theorem c4_heading_promotion_amended_witness :
    ((extractAnchor "Hello \x7b#My-Anchor\x7d").1.map slugify = some "my-anchor" ∧
      ("my-anchor" : String) ≠ "" ∧
      visitHeadingPure 2 "Hello \x7b#My-Anchor\x7d" ⟨[], 0, true⟩ =
        ⟨[spaces (2 * 0) ++ ("<a id=\"" ++ "my-anchor" ++ "\"></a>"),
          spaces (2 * 0) ++
            (String.mk (List.replicate 2 '#') ++ " " ++ (extractAnchor "Hello \x7b#My-Anchor\x7d").2)],
         0, true⟩) ∧
    (((extractAnchor "Plain").1.map slugify = none ∨
        (extractAnchor "Plain").1.map slugify = some "") ∧
      visitHeadingPure 1 "Plain" ⟨[], 0, true⟩ =
        ⟨[spaces (2 * 0) ++
            (String.mk (List.replicate 1 '#') ++ " " ++ (extractAnchor "Plain").2)],
         0, true⟩) ∧
    (HasHeading (Node.document [Node.heading 1 "T" 1 2] 1 2) ∧
      vrun 2 (Node.document [Node.heading 1 "T" 1 2] 1 2) ⟨[], 0, false⟩ =
        VOut.ok ⟨["---", "title: T", "---"], 0, true⟩ ∧
      (⟨["---", "title: T", "---"], 0, true⟩ : PState).printedFirstHeading = true) := by
  have hhx : HasHeading (Node.document [Node.heading 1 "T" 1 2] 1 2) :=
    HasHeading.document (List.mem_singleton.mpr rfl) HasHeading.heading
  have hslug : (extractAnchor "Hello \x7b#My-Anchor\x7d").1.map slugify = some "my-anchor" := by rfl
  have hplain : (extractAnchor "Plain").1.map slugify = none := by rfl
  have hrun : vrun 2 (Node.document [Node.heading 1 "T" 1 2] 1 2) ⟨[], 0, false⟩ =
      VOut.ok ⟨["---", "title: T", "---"], 0, true⟩ := by rfl
  refine ⟨⟨hslug, by decide, ?_⟩, ⟨Or.inl hplain, ?_⟩, hhx, hrun, ?_⟩
  · exact c4_heading_promotion_amended.2.1 2 "Hello \x7b#My-Anchor\x7d" [] 0 "my-anchor" hslug (by decide)
  · exact c4_heading_promotion_amended.2.2.1 1 "Plain" [] 0 (Or.inl hplain)
  · exact c4_heading_promotion_amended.2.2.2 2 _ _ _ hhx hrun

/-- C1 counterexample: `print` does NOT re-initialize the
first-heading-seen flag, so printing the very same document twice with
the same printer yields different bytes: the first call renders the
heading as front matter and flips the flag, the second call renders it
as a `#` heading line. -/
theorem c1_reprint_differs :
    printAst 2 (Node.document [Node.heading 1 "T" 1 2] 1 2) false =
      PrintRes.ok "---\ntitle: T\n---\n" true ∧
    printAst 2 (Node.document [Node.heading 1 "T" 1 2] 1 2) true =
      PrintRes.ok "# T\n" true ∧
    ("---\ntitle: T\n---\n" : String) ≠ "# T\n" := by
  exact ⟨rfl, rfl, by decide⟩

/-- C1 (amended): re-printing is byte-identical only for heading-free
documents. `print` re-initializes the output buffer and the indent level
but carries the printed-first-heading flag over, so for a document with
no heading the printed string does not depend on the carried flag (and
the flag is returned unchanged): two successive `print` calls agree.  A
document containing a heading is a counterexample to the claim as
stated. -/
theorem c1_reprint_stable_no_heading (fuel : Nat) (d : Node) (b1 b2 : Bool)
    (h : NoHeading d) :
    printAst fuel d b1 =
      match printAst fuel d b2 with
      | .ok s _ => .ok s b1
      | .err e => .err e
      | .fuelOut => .fuelOut := by
  simp only [printAst]
  rw [vrun_indep fuel d h [] 0 b1, vrun_indep fuel d h [] 0 b2]
  cases vrun fuel d ⟨[], 0, false⟩ with
  | ok st => rfl
  | err e => rfl
  | fuelOut => rfl

theorem c1_reprint_stable_no_heading_witness :
    NoHeading (Node.document [Node.paragraph ["x"] 1 2] 1 2) ∧
    printAst 2 (Node.document [Node.paragraph ["x"] 1 2] 1 2) false =
      match printAst 2 (Node.document [Node.paragraph ["x"] 1 2] 1 2) true with
      | .ok s _ => .ok s false
      | .err e => .err e
      | .fuelOut => .fuelOut := by
  have hnh : NoHeading (Node.document [Node.paragraph ["x"] 1 2] 1 2) :=
    NoHeading.document (by
      intro b hb
      rw [List.mem_singleton] at hb
      rw [hb]
      exact NoHeading.paragraph)
  exact ⟨hnh, c1_reprint_stable_no_heading 2 _ false true hnh⟩

end Mint
